import Mathlib

/-!
Verification of the project persistence and interchange layer of a
browser-based branching-video editor: the `ExportService` archive codec
(export/import of a project plus embedded base64 video resources) and the
`ProjectService` project store, in their several source variants.

JavaScript strings are modelled as `List Char`, byte buffers as `List Nat`
(each entry < 256), and the browser's sources of nondeterminism
(`crypto.randomUUID`, `URL.createObjectURL`, the clock) as explicit
parameters.  `atob` and the `FileReader`-based base64 encoder are modelled
by executable codecs over these representations.
-/

namespace Amen

/-- JavaScript strings, modelled as lists of characters. -/
abbrev Str := List Char

/-- JS `x || fallback` where `x` is a possibly-absent string field:
both `undefined` and the empty string are falsy. -/
def jsOr (s : Option Str) (fallback : Str) : Str :=
  match s with
  | some v => if v = [] then fallback else v
  | none => fallback

/-- The string literal `'resource://'` used as URI scheme for embedded assets. -/
def resPrefix : Str := "resource://".toList

/-- The string literal `'video'` (the node type tag). -/
def videoType : Str := "video".toList

/-- JS `url.replace('resource://', '')` as used after a successful
`url.startsWith('resource://')` check: replacing the first occurrence of a
pattern that is a prefix of the string drops that prefix. -/
def stripResourcePrefix (url : Str) : Str := url.drop resPrefix.length

/-! ## Base64 codec (`arrayBufferToBase64` / `atob`) -/

/-- The standard base64 alphabet. -/
def b64alphabet : Str :=
  "ABCDEFGHIJKLMNOPQRSTUVWXYZabcdefghijklmnopqrstuvwxyz0123456789+/".toList

/-- The base64 digit for a 6-bit value. -/
def b64char (n : Nat) : Char := b64alphabet.getD n 'A'

/-- The 6-bit value of a base64 digit, `none` for characters outside the
alphabet (on which `atob` throws). -/
def b64val (c : Char) : Option Nat :=
  (List.range 64).find? (fun n => b64char n == c)

/-- Standard base64 encoding of a byte list, with `'='` padding: the encoding
produced by `FileReader.readAsDataURL` after the `data:` header is removed. -/
def base64Encode : List Nat → Str
  | [] => []
  | [a] => [b64char (a / 4), b64char (a % 4 * 16), '=', '=']
  | [a, b] => [b64char (a / 4), b64char (a % 4 * 16 + b / 16), b64char (b % 16 * 4), '=']
  | a :: b :: c :: rest =>
      b64char (a / 4) :: b64char (a % 4 * 16 + b / 16) ::
      b64char (b % 16 * 4 + c / 64) :: b64char (c % 64) :: base64Encode rest

/-- `atob`: base64 decoding to a byte list; `none` models the
`InvalidCharacterError` that `atob` throws on malformed input. -/
def atobDecode : Str → Option (List Nat)
  | [] => some []
  | c1 :: c2 :: c3 :: c4 :: rest =>
    match b64val c1, b64val c2 with
    | some v1, some v2 =>
      if c3 = '=' then
        if c4 = '=' ∧ rest = [] then some [v1 * 4 + v2 / 16] else none
      else
        match b64val c3 with
        | some v3 =>
          if c4 = '=' then
            if rest = [] then some [v1 * 4 + v2 / 16, v2 % 16 * 16 + v3 / 4] else none
          else
            match b64val c4 with
            | some v4 =>
              (atobDecode rest).map
                (fun tl => (v1 * 4 + v2 / 16) :: (v2 % 16 * 16 + v3 / 4) :: (v3 % 4 * 64 + v4) :: tl)
            | none => none
        | none => none
    | _, _ => none
  | _ => none

/-! ## Data model (`types/project.ts`, reactflow node shapes) -/

/-- A `Choice` sub-entity of a video node's payload.  It stands for the part
of the `data` object that the codec copies verbatim through its spreads. -/
structure Choice where
  id : Str
  label : Str
deriving DecidableEq

/-- The `data` payload of a node as read by the codec: `videoUrl`,
`originalFilename` (both possibly absent), the `videoHash` written by the
1.0.0 service variant, and the choices carried along unchanged. -/
structure NodeData where
  videoUrl : Option Str
  originalFilename : Option Str
  videoHash : Option Str
  choices : List Choice
deriving DecidableEq

/-- A reactflow node: `id`, `type`, presentation-only `position`, and an
optional `data` payload. -/
structure RFNode where
  id : Str
  type : Str
  position : Int × Int
  data : Option NodeData
deriving DecidableEq

/-- A reactflow edge: source/target node ids plus the optional
`sourceHandle` naming the choice that triggers it. -/
structure RFEdge where
  id : Str
  source : Str
  target : Str
  sourceHandle : Option Str
deriving DecidableEq

/-- `Project` from `types/project.ts`. -/
structure Project where
  id : Str
  name : Str
  description : Option Str
  createdAt : Nat
  updatedAt : Nat
  nodes : List RFNode
  edges : List RFEdge
deriving DecidableEq

/-! ## The 2.0.0 `ExportService` (archive codec) -/

/-- A record of the IndexedDB `videos` object store: raw bytes plus a mime
type, as written by `storeVideoInDB` and read by `getVideoFromDB`. -/
structure Video where
  data : List Nat
  type : Str
deriving DecidableEq

/-- Outcome of `getVideoFromDB` for one id: `ok` (resolved with a record
carrying data), `notFound` (resolved `null`, also when the record lacks
data), or `failure` (the request or transaction errored and the promise
rejected). -/
inductive FetchResult where
  | ok (video : Video)
  | notFound
  | failure
deriving DecidableEq

/-- The IndexedDB `videos` store on the export side, as a lookup behaviour. -/
abbrev VideoDB := Str → FetchResult

/-- A `Resource` record of the archive envelope. -/
structure Resource where
  id : Str
  data : Str
  type : Str
  nodeId : Str
  mimeType : Str
  filename : Str
deriving DecidableEq

/-- The default filename `'video.mp4'`. -/
def defaultVideoFilename : Str := "video.mp4".toList

/-- `collectResources` body for one node: a video node whose `videoUrl` is a
`resource://` reference contributes a resource when the video can be read
from the store and its base64 encoding is nonempty; a per-node fetch error
(`failure`) is caught and the node skipped. -/
def collectOne (db : VideoDB) (node : RFNode) : Option Resource :=
  match node.data with
  | none => none
  | some d =>
    match d.videoUrl with
    | none => none
    | some url =>
      if node.type = videoType ∧ url ≠ [] then
        if resPrefix.isPrefixOf url then
          match db (stripResourcePrefix url) with
          | .ok video =>
            if base64Encode video.data = [] then none
            else some { id := stripResourcePrefix url, data := base64Encode video.data, type := videoType,
                        nodeId := node.id, mimeType := video.type,
                        filename := jsOr d.originalFilename defaultVideoFilename }
          | .notFound => none
          | .failure => none
        else none
      else none

/-- `collectResources`: walk the nodes in order, collecting the resources of
the nodes whose asset could be read. -/
def collectResources (db : VideoDB) (nodes : List RFNode) : List Resource :=
  nodes.filterMap (collectOne db)

/-- `collectResourcesMetadata` body for one node: same walk, but the emitted
resource carries an empty payload, and no base64 step is involved. -/
def collectMetaOne (db : VideoDB) (node : RFNode) : Option Resource :=
  match node.data with
  | none => none
  | some d =>
    match d.videoUrl with
    | none => none
    | some url =>
      if node.type = videoType ∧ url ≠ [] then
        if resPrefix.isPrefixOf url then
          match db (stripResourcePrefix url) with
          | .ok video =>
            some { id := stripResourcePrefix url, data := [], type := videoType,
                   nodeId := node.id, mimeType := video.type,
                   filename := jsOr d.originalFilename defaultVideoFilename }
          | .notFound => none
          | .failure => none
        else none
      else none

/-- `collectResourcesMetadata`. -/
def collectResourcesMetadata (db : VideoDB) (nodes : List RFNode) : List Resource :=
  nodes.filterMap (collectMetaOne db)

/-- The resource record collected for a video node `n` (payload `d`) whose
`resource://rid` reference resolved to store record `v`. -/
def collectedResource (rid : Str) (v : Video) (n : RFNode) (d : NodeData) : Resource :=
  { id := rid, data := base64Encode v.data, type := videoType, nodeId := n.id,
    mimeType := v.type, filename := jsOr d.originalFilename defaultVideoFilename }

/-- The claim-level notion of a video node whose asset reference resolves to
stored bytes: a `resource://` reference whose store record is readable and
carries a nonempty byte payload. -/
def nodeAsset (db : VideoDB) (node : RFNode) : Option Video :=
  match node.data with
  | none => none
  | some d =>
    match d.videoUrl with
    | none => none
    | some url =>
      if node.type = videoType ∧ resPrefix.isPrefixOf url then
        match db (stripResourcePrefix url) with
        | .ok v => if v.data ≠ [] ∧ v.data.all (fun b => decide (b < 256)) then some v else none
        | .notFound => none
        | .failure => none
      else none

/-- The archive envelope written by `exportProject`. -/
structure ExportData where
  version : Str
  name : Str
  description : Str
  includesVideos : Bool
  scenarioNodes : List RFNode
  scenarioEdges : List RFEdge
  resources : List Resource
deriving DecidableEq

/-- `VERSION = "2.0.0"`. -/
def exportVersion : Str := "2.0.0".toList

/-- The default name `'Projet sans nom'`. -/
def projetSansNom : Str := "Projet sans nom".toList

/-- The node rewrite performed while building `exportData.scenario.nodes`:
a video node with a truthy `videoUrl` whose collected resource exists gets
its reference rewritten to `resource://<resourceId>` and its
`originalFilename` recorded. -/
def exportRewriteNode (resources : List Resource) (node : RFNode) : RFNode :=
  match node.data with
  | none => node
  | some d =>
    match d.videoUrl with
    | none => node
    | some url =>
      if node.type = videoType ∧ url ≠ [] then
        match resources.find? (fun r => r.nodeId == node.id) with
        | some r =>
          { node with
            data := some { d with
              videoUrl := some (resPrefix ++ r.id)
              originalFilename := some r.filename } }
        | none => node
      else node

/-- `exportProject` of the 2.0.0 variant.  The result is `Except` because the
source rethrows any error; resource collection catches its per-node errors,
so the export as modelled always succeeds. -/
def exportProject (db : VideoDB) (project : Project) (includeVideos : Bool) :
    Except Str ExportData :=
  let resources :=
    if includeVideos then collectResources db project.nodes
    else collectResourcesMetadata db project.nodes
  .ok { version := exportVersion,
        name := jsOr (some project.name) projetSansNom,
        description := jsOr project.description [],
        includesVideos := includeVideos,
        scenarioNodes := project.nodes.map (exportRewriteNode resources),
        scenarioEdges := project.edges,
        resources := resources }

/-! ## Import side of the 2.0.0 `ExportService` -/

/-- The `project` object of a legacy `{project, resources}` archive, with
every field possibly absent. -/
structure RawProject where
  id : Option Str
  name : Option Str
  description : Option Str
  nodes : Option (List RFNode)
  edges : Option (List RFEdge)
  createdAt : Option Nat
  updatedAt : Option Nat
deriving DecidableEq

/-- The `scenario` object of the current envelope. -/
structure RawScenario where
  nodes : Option (List RFNode)
  edges : Option (List RFEdge)
deriving DecidableEq

/-- A parsed JSON archive object, projected onto the fields the import
routine reads. -/
structure ImportData where
  version : Option Str
  name : Option Str
  description : Option Str
  project : Option RawProject
  scenario : Option RawScenario
  resources : Option (List Resource)
deriving DecidableEq

/-- The import routine's input after `file.text()`: the text failed to parse
as JSON, parsed to a non-object value, or parsed to an object. -/
inductive ImportInput where
  | parseError
  | nonObject
  | object (d : ImportData)

/-- The environment of one import run: the clock and the values produced by
the successive `crypto.randomUUID()` calls, named per call site
(`projectUuid` for the scenario-branch project id, `projectUuid2` for the
patch of a falsy project id, `resourceUuid k` for the `k`-th iteration of
the resource-id minting loop). -/
structure ImportEnv where
  now : Nat
  projectUuid : Str
  projectUuid2 : Str
  resourceUuid : Nat → Str

/-- `` `resource-${crypto.randomUUID().split('-')[0]}` ``. -/
def mkResourceId (uuid : Str) : Str :=
  "resource-".toList ++ uuid.takeWhile (fun c => c ≠ '-')

/-- The default imported-project name `'Projet importé'`. -/
def projetImporte : Str := "Projet importé".toList

/-- `throw new Error('Invalid JSON format')`. -/
def invalidJsonMsg : Str := "Invalid JSON format".toList

/-- `throw new Error('Invalid project file format')`. -/
def invalidFormatMsg : Str := "Invalid project file format".toList

/-- `throw new Error('Invalid project file: missing or invalid project data')`. -/
def missingProjectMsg : Str := "Invalid project file: missing or invalid project data".toList

/-- The project being assembled before the field patches of the import
routine; absent-or-empty string fields are collapsed to `[]` (both are falsy
and patched identically). -/
structure PreProject where
  id : Str
  name : Str
  description : Str
  nodes : Option (List RFNode)
  edges : Option (List RFEdge)
  createdAt : Option Nat
  updatedAt : Option Nat
deriving DecidableEq

/-- Envelope detection: a truthy `project` key selects the legacy shape; a
`scenario` object with a `nodes` field (any array is truthy) selects the
current shape; anything else is rejected. -/
def normalizeEnvelope (env : ImportEnv) (d : ImportData) : Except Str PreProject :=
  match d.project with
  | some rp =>
    .ok { id := rp.id.getD [], name := rp.name.getD [],
          description := rp.description.getD [],
          nodes := rp.nodes, edges := rp.edges,
          createdAt := rp.createdAt, updatedAt := rp.updatedAt }
  | none =>
    match d.scenario with
    | some sc =>
      match sc.nodes with
      | some ns =>
        .ok { id := env.projectUuid, name := jsOr d.name projetImporte,
              description := jsOr d.description [],
              nodes := some ns, edges := some (sc.edges.getD []),
              createdAt := some env.now, updatedAt := some env.now }
      | none => .error missingProjectMsg
    | none => .error missingProjectMsg

/-- The required-field patches (`if (!project.id) …` through
`project.edges = Array.isArray(...) ? ... : []`). -/
def patchProject (env : ImportEnv) (d : ImportData) (pre : PreProject) : Project :=
  { id := if pre.id = [] then env.projectUuid2 else pre.id,
    name := if pre.name = [] then jsOr d.name projetImporte else pre.name,
    description := some (if pre.description = [] then jsOr d.description [] else pre.description),
    createdAt := pre.createdAt.getD env.now,
    updatedAt := pre.updatedAt.getD env.now,
    nodes := pre.nodes.getD [],
    edges := pre.edges.getD [] }

/-- A record written into the `videos` store by `storeVideoInDB`. -/
structure StoredVideo where
  data : List Nat
  type : Str
deriving DecidableEq

/-- Lookup in a JS `Map` built by successive `set` calls (a later `set` on
the same key wins). -/
def lookupLast {β : Type} (ps : List (Str × β)) (k : Str) : Option β :=
  ps.reverse.lookup k

/-- `resourceMap`: `new Map(resources.map(r => [r.id, r]))`. -/
def buildResourceMap (resources : List Resource) : Str → Option Resource :=
  fun k => lookupLast (resources.map (fun r => (r.id, r))) k

/-- `resourceIdMap`: the minting loop assigns the `k`-th resource the fresh
id `mkResourceId (env.resourceUuid k)`, keyed by its recorded id. -/
def buildResourceIdMap (env : ImportEnv) (resources : List Resource) : Str → Option Str :=
  fun k =>
    lookupLast (resources.enum.map (fun kr => (kr.2.id, mkResourceId (env.resourceUuid kr.1)))) k

/-- One iteration of the node-restoration loop: a video node whose url is a
`resource://` reference, whose resource carries data and got a fresh id, is
rewritten to the fresh reference, and the decoded bytes are stored under the
fresh id; an `atob` failure is caught and leaves the node untouched. -/
def restoreNode (resourceMap : Str → Option Resource) (idMap : Str → Option Str)
    (node : RFNode) : RFNode × Option (Str × StoredVideo) :=
  if node.type = videoType then
    match node.data with
    | some d =>
      match d.videoUrl with
      | some url =>
        if resPrefix.isPrefixOf url then
          match resourceMap (stripResourcePrefix url), idMap (stripResourcePrefix url) with
          | some res, some newId =>
            if res.data ≠ [] ∧ newId ≠ [] then
              match atobDecode res.data with
              | some bytes =>
                ({ node with
                   data := some { d with
                     videoUrl := some (resPrefix ++ newId)
                     originalFilename := some res.filename } },
                 some (newId, { data := bytes, type := res.mimeType }))
              | none => (node, none)
            else (node, none)
          | _, _ => (node, none)
        else (node, none)
      | none => (node, none)
    | none => (node, none)
  else (node, none)

/-- The whole restoration block, guarded by `resources.length > 0`.  The
stored list is reversed so that `List.lookup` sees the last `put` to a key
first, matching IndexedDB upsert semantics. -/
def restoreResources (env : ImportEnv) (resources : List Resource) (project : Project) :
    Project × List (Str × StoredVideo) :=
  if resources ≠ [] then
    let resourceMap := buildResourceMap resources
    let idMap := buildResourceIdMap env resources
    let steps := project.nodes.map (restoreNode resourceMap idMap)
    ({ project with nodes := steps.map Prod.fst },
     (steps.filterMap Prod.snd).reverse)
  else (project, [])

/-- The result of a successful import: the reconstructed project and the
records written into the `videos` store. -/
structure ImportResult where
  project : Project
  stored : List (Str × StoredVideo)

/-- `importProject` of the 2.0.0 variant. -/
def importProject (env : ImportEnv) (input : ImportInput) : Except Str ImportResult :=
  match input with
  | .parseError => .error invalidJsonMsg
  | .nonObject => .error invalidFormatMsg
  | .object d =>
    match normalizeEnvelope env d with
    | .error e => .error e
    | .ok pre =>
      let project := patchProject env d pre
      let resources := d.resources.getD []
      let r := restoreResources env resources project
      .ok { project := r.1, stored := r.2 }

/-- The JSON round-trip from an export envelope to the object seen by
the import routine: the current `{version, …, scenario, resources}` shape,
which has no `project` key. -/
def toImportData (e : ExportData) : ImportData :=
  { version := some e.version, name := some e.name, description := some e.description,
    project := none,
    scenario := some { nodes := some e.scenarioNodes, edges := some e.scenarioEdges },
    resources := some e.resources }

/-! ## The 1.0.0 `ExportService` (hash-keyed variant)

The `exportService.ts` singleton with `version = '1.0.0'`: its import gate
checks major-version equality, and its restoration keys resources by URL
hash, recreating blob URLs. -/
namespace V1

/-- `private readonly version = '1.0.0'`. -/
def version : Str := "1.0.0".toList

/-- `version.split('.')[0]`: the leading component up to the first dot (the
whole string when there is no dot, as with JS `split`). -/
def major (v : Str) : Str := v.takeWhile (fun c => c ≠ '.')

/-- `isVersionCompatible`: major components equal. -/
def isVersionCompatible (v : Str) : Bool := major version == major v

/-- A resource of the 1.0.0 envelope, keyed by hash. -/
structure V1Resource where
  hash : Str
  originalName : Str
  mimeType : Str
  data : Str
deriving DecidableEq

/-- A scenario node of the 1.0.0 envelope; this variant's export always
writes a `data` object. -/
structure V1Node where
  id : Str
  type : Str
  position : Int × Int
  data : NodeData
deriving DecidableEq

/-- The `ProjectExport` envelope of the 1.0.0 variant. -/
structure ProjectExport where
  version : Str
  name : Str
  description : Option Str
  nodes : List V1Node
  edges : List RFEdge
  resources : List V1Resource
  metaCreatedAt : Nat
  metaUpdatedAt : Nat

/-- Environment of one 1.0.0 import run: the minted project uuid, the
successive `URL.createObjectURL` results, and the outcome of `fetch` on each
resource's `data` string — `fetch(base64Data)` resolves or rejects depending
on the payload (a malformed data URL rejects) and on the environment. -/
structure V1Env where
  uuid : Str
  blobUrl : Nat → Str
  fetchData : Str → Except Str Unit

/-- `` `Version ${v} non compatible. Version attendue: ${this.version}` ``. -/
def incompatibleVersionMsg (v : Str) : Str :=
  "Version ".toList ++ v ++ " non compatible. Version attendue: ".toList ++ version

/-- The two distinguishable failures of the 1.0.0 import: the `Error` thrown
explicitly by the version gate, and a rejection propagated out of
`createBlobUrl`'s `await fetch(base64Data)`. -/
inductive V1Error where
  | incompatibleVersion (msg : Str)
  | fetchFailed (msg : Str)
deriving DecidableEq

/-- `createBlobUrl(base64Data, mimeType)` for the `k`-th resource:
`await fetch(base64Data)` either rejects (propagating its error) or resolves,
in which case `URL.createObjectURL` mints the run's `k`-th blob URL. -/
def createBlobUrl (env : V1Env) (k : Nat) (data : Str) : Except Str Str :=
  match env.fetchData data with
  | .error e => .error e
  | .ok _ => .ok (env.blobUrl k)

/-- The `for (const resource of exportData.resources)` loop: each resource's
data is fetched in order and the first rejection aborts the import; on full
success the `Map.set` calls produce the `(hash, blobUrl)` entries in order. -/
def buildV1Entries (env : V1Env) : List (Nat × V1Resource) → Except Str (List (Str × Str))
  | [] => .ok []
  | kr :: tl =>
    match createBlobUrl env kr.1 kr.2.data with
    | .error e => .error e
    | .ok url =>
      match buildV1Entries env tl with
      | .error e => .error e
      | .ok m => .ok ((kr.2.hash, url) :: m)

/-- The restored node list: each node's `videoUrl` becomes the blob URL of
its hash's resource when a truthy `videoHash` is present. -/
def restoreV1Node (resourceMap : Str → Option Str) (node : V1Node) : V1Node :=
  { node with data := { node.data with
      videoUrl := match node.data.videoHash with
        | some h => if h ≠ [] then resourceMap h else node.data.videoUrl
        | none => node.data.videoUrl } }

/-- The result of a 1.0.0 import. -/
structure V1Result where
  project : Project
  nodes : List V1Node
  edges : List RFEdge

/-- The evident injection of a 1.0.0 scenario node into the reactflow node
type (this variant's nodes always carry a `data` object). -/
def V1Node.toRF (n : V1Node) : RFNode :=
  ⟨n.id, n.type, n.position, some n.data⟩

/-- `importProject` of the 1.0.0 variant: version gate, blob-URL re-creation
per resource (the first rejecting `fetch` aborts the import; later resources
win on a shared hash, as with `Map.set`), node restoration, and a project
carrying a fresh uuid, the restored nodes, and the archive's metadata
timestamps. -/
def importProject (env : V1Env) (d : ProjectExport) : Except V1Error V1Result :=
  if ¬ isVersionCompatible d.version then
    .error (.incompatibleVersion (incompatibleVersionMsg d.version))
  else
    match buildV1Entries env d.resources.enum with
    | .error e => .error (.fetchFailed e)
    | .ok entries =>
      let nodes := d.nodes.map (restoreV1Node (fun k => lookupLast entries k))
      .ok { project := { id := env.uuid, name := d.name, description := d.description,
                         createdAt := d.metaCreatedAt, updatedAt := d.metaUpdatedAt,
                         nodes := nodes.map V1Node.toRF, edges := d.edges },
            nodes := nodes, edges := d.edges }

end V1

/-! ## `ProjectService`

Two variants share the file: one over IndexedDB (`amen_db`/`projects`,
keyPath `id`), one over localStorage (`amen_projects` metadata list plus one
`amen_project_<id>` entry per project). -/
namespace IDB

/-- The IndexedDB `projects` object store: one record per id (`put` upserts
by keyPath). -/
abbrev Store := List Project

/-- `store.put(project)`: replace the record with the same id, or add one. -/
def put (store : Store) (p : Project) : Store :=
  if store.any (fun q => q.id == p.id) then
    store.map (fun q => if q.id == p.id then p else q)
  else store ++ [p]

/-- `saveProject`: stamps `updatedAt` with the current time, then `put`s. -/
def saveProject (now : Nat) (store : Store) (p : Project) : Store :=
  put store { p with updatedAt := now }

/-- `loadProject`: `store.get(id)` resolves `request.result || null` — a
missing id yields a successful `null`, never a failure (and the outer catch
also returns `null`). -/
def loadProject (store : Store) (id : Str) : Except Str (Option Project) :=
  .ok (store.find? (fun q => q.id == id))

/-- `listProjects`: `getAll()` then sort by `updatedAt` descending. -/
def listProjects (store : Store) : List Project :=
  store.mergeSort (fun a b => b.updatedAt ≤ a.updatedAt)

end IDB

namespace LS

/-- The localStorage state: the ids of the records stored under
`amen_projects` (in array order; only the `id` field of those records is
ever read back), and the `amen_project_<id>` documents. -/
structure State where
  metaIds : List Str
  data : List (Str × Project)
deriving DecidableEq

/-- `localStorage.setItem` on a keyed collection: overwrite or append. -/
def assocPut {β : Type} (m : List (Str × β)) (k : Str) (v : β) : List (Str × β) :=
  if m.any (fun p => p.1 == k) then m.map (fun p => if p.1 == k then (k, v) else p)
  else m ++ [(k, v)]

/-- `throw new Error('Project not found')`. -/
def projectNotFoundMsg : Str := "Project not found".toList

/-- `loadProject`: throws `Project not found` when the id has no document. -/
def loadProject (s : State) (id : Str) : Except Str Project :=
  match s.data.lookup id with
  | none => .error projectNotFoundMsg
  | some p => .ok p

/-- `listProjects`: walk the metadata records in stored order, load each
project, and drop the ones that fail to load.  No reordering happens. -/
def listProjects (s : State) : List Project :=
  s.metaIds.filterMap (fun id => (loadProject s id).toOption)

/-- `saveProject`: stamp `updatedAt`, write the document, then rewrite the
`amen_projects` array — replacing the entry with the project's id in place,
or appending one. -/
def saveProject (now : Nat) (s : State) (p0 : Project) : State :=
  let p := { p0 with updatedAt := now }
  let s1 : State := { metaIds := s.metaIds, data := assocPut s.data p.id p }
  let ids := (listProjects s1).map (fun q => q.id)
  if ids.any (fun i => i == p.id) then { s1 with metaIds := ids }
  else { s1 with metaIds := ids ++ [p.id] }

/-- `createProject`: build an empty project stamped `now`, write its
document, then append its metadata to the `amen_projects` array. -/
def createProject (now : Nat) (id : Str) (name : Str) (description : Option Str)
    (s : State) : State × Str :=
  let p : Project := { id := id, name := name, description := description,
                       nodes := [], edges := [], createdAt := now, updatedAt := now }
  let s1 : State := { metaIds := s.metaIds, data := assocPut s.data p.id p }
  let ids := (listProjects s1).map (fun q => q.id)
  ({ s1 with metaIds := ids ++ [p.id] }, p.id)

end LS

/-! ## `base64ToBlob` (import-side decoder) -/

/-- The separator literal `'base64,'`. -/
def b64sep : Str := "base64,".toList

/-- JS `s.includes('base64,')`. -/
def jsIncludesB64 : Str → Bool
  | [] => false
  | c :: rest => b64sep.isPrefixOf (c :: rest) || jsIncludesB64 rest

/-- JS `s.split('base64,')`: the parts between the left-to-right
non-overlapping occurrences of the separator. -/
def jsSplitOnB64 : Str → List Str
  | [] => [[]]
  | c :: rest =>
    if b64sep.isPrefixOf (c :: rest) then
      [] :: jsSplitOnB64 ((c :: rest).drop b64sep.length)
    else
      match jsSplitOnB64 rest with
      | [] => [[c]]
      | p :: ps => (c :: p) :: ps
termination_by s => s.length
decreasing_by
  · have hsep : b64sep.length = 7 := rfl
    simp only [List.length_drop, List.length_cons, hsep]
    omega
  · simp only [List.length_cons]
    omega

/-- A `Blob`: bytes plus a content type. -/
structure Blob where
  data : List Nat
  type : Str
deriving DecidableEq

/-- `'video/mp4'`, the fallback content type. -/
def defaultMime : Str := "video/mp4".toList

/-- `throw new Error('Failed to convert video data')`. -/
def convertFailedMsg : Str := "Failed to convert video data".toList

/-- `base64ToBlob`: drop the data-URL header if the string contains
`'base64,'` (taking `split('base64,')[1]`), decode with `atob`, and wrap the
bytes as a blob; a decode error is caught and rethrown as a conversion
failure. -/
def base64ToBlob (base64 : Str) (type : Str) : Except Str Blob :=
  let base64Data := if jsIncludesB64 base64 then (jsSplitOnB64 base64).getD 1 [] else base64
  match atobDecode base64Data with
  | some bytes => .ok { data := bytes, type := if type = [] then defaultMime else type }
  | none => .error convertFailedMsg

/-- A data-URL header `` `data:<mime>;base64,` ``. -/
def dataUrlHeader (mime : Str) : Str := "data:".toList ++ mime ++ ";".toList ++ b64sep

/-! ## Concrete fixtures (used by witnesses and counterexamples) -/

/-- A store holding one two-byte video under id `r1`. -/
def dbW : VideoDB :=
  fun rid => if rid = "r1".toList then .ok ⟨[0, 1], "video/mp4".toList⟩ else .notFound

/-- A video node referencing `resource://r1`. -/
def nodeW : RFNode :=
  ⟨"a".toList, videoType, (0, 0), some ⟨some (resPrefix ++ "r1".toList), none, none, []⟩⟩

/-- A button node with no payload. -/
def nodeW2 : RFNode := ⟨"b".toList, "button".toList, (1, 1), none⟩

def edgeW : RFEdge := ⟨"e".toList, "a".toList, "b".toList, none⟩

def projW : Project := ⟨"p".toList, "Demo".toList, none, 0, 0, [nodeW, nodeW2], [edgeW]⟩

def envW : ImportEnv :=
  ⟨42, "u-1".toList, "u-2".toList, fun k => Nat.toDigits 10 k ++ "-x".toList⟩

/-- The metadata-only export of the fixture project. -/
def exportMetaW : ExportData :=
  ((exportProject dbW projW false).toOption).getD ⟨[], [], [], false, [], [], []⟩

def resMetaW : Resource := exportMetaW.resources.headD ⟨[], [], [], [], [], []⟩

/-- A scenario-shape archive object declaring version `3.0.0`. -/
def d3W : ImportData :=
  ⟨some ("3.0.0".toList), some ("N".toList), none, none, some ⟨some [], some []⟩, none⟩

/-- A legacy project-shape archive object with embedded id `X` and embedded
timestamps `5` / `7`. -/
def rpC8W : RawProject := ⟨some ("X".toList), some ("N".toList), none, none, none, some 5, some 7⟩

def dC8W : ImportData := ⟨some exportVersion, none, none, some rpC8W, none, none⟩

def scW : RawScenario := ⟨some [], some []⟩

def dScW : ImportData := ⟨some exportVersion, none, none, none, some scW, none⟩

/-- The localStorage state after creating `p1` at time 0 then `p2` at time 1. -/
def lsDemoW : LS.State :=
  (LS.createProject 1 ("p2".toList) ("P2".toList) none
    (LS.createProject 0 ("p1".toList) ("P1".toList) none ⟨[], []⟩).1).1

/-- An object with neither a `project` key nor a `scenario`. -/
def dBadW : ImportData := ⟨some exportVersion, none, none, none, none, none⟩

/-- Store for the partial-failure scenario: `r1`, `r3` readable, `r2` fails. -/
def db6W : VideoDB := fun rid =>
  if rid = "r1".toList then .ok ⟨[0, 1], "video/mp4".toList⟩
  else if rid = "r2".toList then .failure
  else if rid = "r3".toList then .ok ⟨[2], "video/mp4".toList⟩
  else .notFound

/-- The payload of a video node referencing `resource://<rid>`. -/
def vdW (rid : Str) : NodeData := ⟨some (resPrefix ++ rid), none, none, []⟩

def n2vW : RFNode := ⟨"b".toList, videoType, (1, 1), some (vdW ("r2".toList))⟩

def n3W : RFNode := ⟨"c".toList, videoType, (2, 2), some (vdW ("r3".toList))⟩

def proj6W : Project := ⟨"p6".toList, "Demo".toList, none, 0, 0, [nodeW, n2vW, n3W], []⟩

def projW2 : Project := ⟨"q".toList, "Demo2".toList, none, 0, 0, [], []⟩

/-- The full export of the fixture project. -/
def exportFullW : ExportData :=
  ((exportProject dbW projW true).toOption).getD ⟨[], [], [], false, [], [], []⟩

/-- A legacy project-shape archive carrying one video node and one resource
recorded under the id `old-1`. -/
def resC2W : Resource :=
  ⟨"old-1".toList, base64Encode [0, 1], "video/mp4".toList, "a".toList,
   "video/mp4".toList, "v.mp4".toList⟩

def nC2W : RFNode :=
  ⟨"a".toList, videoType, (0, 0), some ⟨some (resPrefix ++ "old-1".toList), none, none, []⟩⟩

def rpC2W : RawProject :=
  ⟨some ("X".toList), some ("N".toList), none, some [nC2W], some [], some 5, some 7⟩

def dC2W : ImportData := ⟨some exportVersion, none, none, some rpC2W, none, some [resC2W]⟩

/-- The import results of the two C2 fixture archives. -/
def rC2W : ImportResult :=
  ((importProject envW (.object dC2W)).toOption).getD ⟨⟨[], [], none, 0, 0, [], []⟩, []⟩

def rScW : ImportResult :=
  ((importProject envW (.object dScW)).toOption).getD ⟨⟨[], [], none, 0, 0, [], []⟩, []⟩

/-- A 1.0.0 environment whose `fetch` resolves on every payload, and a 1.0.0
archive declaring version `3.0.0`. -/
def v1envW : V1.V1Env :=
  ⟨"vu".toList, fun k => "blob-".toList ++ Nat.toDigits 10 k, fun _ => .ok ()⟩

def v1resW : V1.V1Resource :=
  ⟨"h1".toList, "v.mp4".toList, "video/mp4".toList, "data:video/mp4;base64,AAE".toList⟩

def v1badW : V1.ProjectExport :=
  ⟨"3.0.0".toList, "N".toList, none, [], [], [v1resW], 5, 7⟩

/-! ## Lemmas and the claims -/

lemma b64val_b64char : ∀ n : Nat, n < 64 → b64val (b64char n) = some n := by decide

lemma b64char_ne_eq : ∀ n : Nat, n < 64 → b64char n ≠ '=' := by decide

lemma base64Encode_ne_nil {bs : List Nat} (h : bs ≠ []) : base64Encode bs ≠ [] := by
  match bs with
  | [] => exact absurd rfl h
  | [a] => simp [base64Encode]
  | [a, b] => simp [base64Encode]
  | a :: b :: c :: rest => simp [base64Encode]

/-- Decoding inverts encoding on byte lists. -/
theorem atobDecode_base64Encode :
    ∀ (bs : List Nat), (∀ b ∈ bs, b < 256) → atobDecode (base64Encode bs) = some bs := by
  intro bs
  induction bs using base64Encode.induct with
  | case1 =>
    intro _; simp [base64Encode, atobDecode]
  | case2 a =>
    intro h
    have ha : a < 256 := h a (by simp)
    have e1 := b64val_b64char (a / 4) (by omega)
    have e2 := b64val_b64char (a % 4 * 16) (by omega)
    simp [base64Encode, atobDecode, e1, e2]
    omega
  | case3 a b =>
    intro h
    have ha : a < 256 := h a (by simp)
    have hb : b < 256 := h b (by simp)
    have e1 := b64val_b64char (a / 4) (by omega)
    have e2 := b64val_b64char (a % 4 * 16 + b / 16) (by omega)
    have e3 := b64val_b64char (b % 16 * 4) (by omega)
    have n3 := b64char_ne_eq (b % 16 * 4) (by omega)
    simp [base64Encode, atobDecode, e1, e2, e3, n3]
    omega
  | case4 a b c rest ih =>
    intro h
    have ha : a < 256 := h a (by simp)
    have hb : b < 256 := h b (by simp)
    have hc : c < 256 := h c (by simp)
    have hrest : ∀ x ∈ rest, x < 256 := fun x hx => h x (by simp [hx])
    have e1 := b64val_b64char (a / 4) (by omega)
    have e2 := b64val_b64char (a % 4 * 16 + b / 16) (by omega)
    have e3 := b64val_b64char (b % 16 * 4 + c / 64) (by omega)
    have e4 := b64val_b64char (c % 64) (by omega)
    have n3 := b64char_ne_eq (b % 16 * 4 + c / 64) (by omega)
    have n4 := b64char_ne_eq (c % 64) (by omega)
    simp [base64Encode, atobDecode, ih hrest, e1, e2, e3, e4, n3, n4]
    omega

/-! ## General lemmas -/
lemma lookup_mem {β : Type} :
    ∀ {l : List (Str × β)} {k : Str} {v : β}, l.lookup k = some v → (k, v) ∈ l := by
  intro l
  induction l with
  | nil => intro k v h; simp [List.lookup] at h
  | cons p t ih =>
    intro k v h
    obtain ⟨k', v'⟩ := p
    rw [List.lookup_cons] at h
    by_cases hk : k == k'
    · rw [hk] at h
      simp only [] at h
      obtain rfl := Option.some.inj h
      have : k = k' := by simpa [beq_iff_eq] using hk
      subst this
      exact List.mem_cons_self _ _
    · rw [Bool.not_eq_true] at hk
      rw [hk] at h
      exact List.mem_cons_of_mem _ (ih h)

lemma mem_lookup_isSome {β : Type} :
    ∀ {l : List (Str × β)} {k : Str} {v : β}, (k, v) ∈ l → ∃ v', l.lookup k = some v' := by
  intro l
  induction l with
  | nil => intro k v h; simp at h
  | cons p t ih =>
    intro k v h
    obtain ⟨k', v'⟩ := p
    rw [List.lookup_cons]
    by_cases hk : k == k'
    · rw [hk]; exact ⟨v', rfl⟩
    · rw [Bool.not_eq_true] at hk
      rw [hk]
      rcases List.mem_cons.mp h with heq | hmem
      · obtain ⟨h1, h2⟩ := Prod.mk.inj heq
        rw [h1] at hk
        simp [beq_iff_eq] at hk
      · exact ih hmem

lemma lookupLast_mem {β : Type} {ps : List (Str × β)} {k : Str} {v : β}
    (h : lookupLast ps k = some v) : (k, v) ∈ ps := by
  have := lookup_mem h
  simpa using this

lemma mem_lookupLast_isSome {β : Type} {ps : List (Str × β)} {k : Str} {v : β}
    (h : (k, v) ∈ ps) : ∃ v', lookupLast ps k = some v' := by
  apply mem_lookup_isSome (v := v)
  simpa using h

lemma isPrefixOf_append (l t : Str) : l.isPrefixOf (l ++ t) = true := by
  rw [ List.isPrefixOf_iff_prefix]
  exact List.prefix_append _ _

lemma stripResourcePrefix_append (l : Str) : stripResourcePrefix (resPrefix ++ l) = l := by
  rw [stripResourcePrefix]
  exact List.drop_left resPrefix l

lemma resPrefix_append_ne_nil (l : Str) : resPrefix ++ l ≠ [] := by
  simp [resPrefix]

lemma mkResourceId_ne_nil (u : Str) : mkResourceId u ≠ [] := by
  simp [mkResourceId]

/-! ## Lemmas about the 2.0.0 `ExportService` -/
lemma collectOne_nodeId {db : VideoDB} {n : RFNode} {r : Resource}
    (h : collectOne db n = some r) : r.nodeId = n.id := by
  unfold collectOne at h
  repeat' split at h
  all_goals first
    | (obtain rfl := Option.some.inj h; rfl)
    | exact Option.noConfusion h

lemma collectOne_shape {db : VideoDB} {n : RFNode} {r : Resource}
    (h : collectOne db n = some r) :
    ∃ v : Video, db r.id = .ok v ∧ r.data = base64Encode v.data ∧
      r.mimeType = v.type ∧ r.data ≠ [] := by
  unfold collectOne at h
  repeat' split at h
  all_goals first
    | exact Option.noConfusion h
    | (obtain rfl := Option.some.inj h
       exact ⟨_, by assumption, rfl, rfl, by assumption⟩)

/-- A video node whose asset resolves (in the claim's sense) contributes its
resource to a full export's collection. -/
lemma nodeAsset_collectOne {db : VideoDB} {n : RFNode} {v : Video}
    (h : nodeAsset db n = some v) :
    ∃ d url, n.data = some d ∧ d.videoUrl = some url ∧ n.type = videoType ∧
      resPrefix.isPrefixOf url = true ∧ db (stripResourcePrefix url) = .ok v ∧
      v.data ≠ [] ∧ (∀ b ∈ v.data, b < 256) ∧
      collectOne db n = some { id := stripResourcePrefix url, data := base64Encode v.data,
                               type := videoType, nodeId := n.id, mimeType := v.type,
                               filename := jsOr d.originalFilename defaultVideoFilename } := by
  unfold nodeAsset at h
  cases hnd : n.data with
  | none => simp only [hnd] at h; exact Option.noConfusion h
  | some d =>
    simp only [hnd] at h
    cases hvu : d.videoUrl with
    | none => simp only [hvu] at h; exact Option.noConfusion h
    | some url =>
      simp only [hvu] at h
      by_cases hguard : n.type = videoType ∧ resPrefix.isPrefixOf url = true
      swap
      · rw [if_neg hguard] at h
        exact Option.noConfusion h
      rw [if_pos hguard] at h
      cases hdb : db (stripResourcePrefix url) with
      | ok video =>
        simp only [hdb] at h
        by_cases hvd : video.data ≠ [] ∧ video.data.all (fun b => decide (b < 256)) = true
        swap
        · rw [if_neg hvd] at h
          exact Option.noConfusion h
        rw [if_pos hvd] at h
        have hveq : video = v := Option.some.inj h
        subst hveq
        have hnil : video.data ≠ [] := hvd.1
        have hbytes : ∀ b ∈ video.data, b < 256 := by
          intro b hb
          have := hvd.2
          rw [List.all_eq_true] at this
          simpa using this b hb
        have hurlne : url ≠ [] := by
          have hp := hguard.2
          rw [ List.isPrefixOf_iff_prefix] at hp
          obtain ⟨t, rfl⟩ := hp
          simp [resPrefix]
        refine ⟨d, url, rfl, hvu, hguard.1, hguard.2, hdb, hnil, hbytes, ?_⟩
        unfold collectOne
        simp only [hnd, hvu, hdb]
        rw [if_pos ⟨hguard.1, hurlne⟩, if_pos hguard.2, if_neg]
        exact base64Encode_ne_nil hnil
      | notFound => simp only [hdb] at h; exact Option.noConfusion h
      | failure => simp only [hdb] at h; exact Option.noConfusion h

lemma collectMetaOne_data {db : VideoDB} {n : RFNode} {r : Resource}
    (h : collectMetaOne db n = some r) : r.data = [] := by
  unfold collectMetaOne at h
  repeat' split at h
  all_goals first
    | (obtain rfl := Option.some.inj h; rfl)
    | exact Option.noConfusion h

lemma exportRewriteNode_id (rs : List Resource) (n : RFNode) :
    (exportRewriteNode rs n).id = n.id := by
  unfold exportRewriteNode
  repeat' split
  all_goals rfl

lemma exportRewriteNode_type (rs : List Resource) (n : RFNode) :
    (exportRewriteNode rs n).type = n.type := by
  unfold exportRewriteNode
  repeat' split
  all_goals rfl

lemma restoreNode_fst_id (rm : Str → Option Resource) (im : Str → Option Str) (n : RFNode) :
    ((restoreNode rm im n).1.id = n.id) ∧ ((restoreNode rm im n).1.type = n.type) := by
  unfold restoreNode
  repeat' split
  all_goals exact ⟨rfl, rfl⟩

/-- What a successful store step of the restoration loop tells us. -/
lemma restoreNode_snd_shape {rm : Str → Option Resource} {im : Str → Option Str} {n : RFNode}
    {nid : Str} {sv : StoredVideo} (h : (restoreNode rm im n).2 = some (nid, sv)) :
    ∃ (d : NodeData) (url : Str) (res : Resource), n.data = some d ∧ d.videoUrl = some url ∧
      n.type = videoType ∧ resPrefix.isPrefixOf url = true ∧
      rm (stripResourcePrefix url) = some res ∧ im (stripResourcePrefix url) = some nid ∧
      res.data ≠ [] ∧ atobDecode res.data = some sv.data ∧ sv.type = res.mimeType := by
  unfold restoreNode at h
  by_cases ht : n.type = videoType
  swap
  · rw [if_neg ht] at h
    exact Option.noConfusion h
  rw [if_pos ht] at h
  cases hnd : n.data with
  | none => simp only [hnd] at h; exact Option.noConfusion h
  | some d =>
    simp only [hnd] at h
    cases hvu : d.videoUrl with
    | none => simp only [hvu] at h; exact Option.noConfusion h
    | some url =>
      simp only [hvu] at h
      by_cases hp : resPrefix.isPrefixOf url = true
      swap
      · rw [if_neg hp] at h
        exact Option.noConfusion h
      rw [if_pos hp] at h
      cases hrm : rm (stripResourcePrefix url) with
      | none => simp only [hrm] at h; exact Option.noConfusion h
      | some res =>
        cases him : im (stripResourcePrefix url) with
        | none => simp only [hrm, him] at h; exact Option.noConfusion h
        | some newId =>
          simp only [hrm, him] at h
          by_cases hcond : res.data ≠ [] ∧ newId ≠ []
          swap
          · rw [if_neg hcond] at h
            exact Option.noConfusion h
          rw [if_pos hcond] at h
          cases hdec : atobDecode res.data with
          | none => simp only [hdec] at h; exact Option.noConfusion h
          | some bytes =>
            simp only [hdec] at h
            obtain ⟨h1, h2⟩ := Prod.mk.inj (Option.some.inj h)
            refine ⟨d, url, res, rfl, hvu, ht, hp, hrm, ?_, hcond.1, ?_, ?_⟩
            · rw [him, h1]
            · rw [hdec, ← h2]
            · rw [← h2]

/-- A successfully restored node: its fields and its store contribution. -/
lemma restoreNode_success {rm : Str → Option Resource} {im : Str → Option Str} {n : RFNode}
    {d : NodeData} {url : Str} {res : Resource} {newId : Str} {bytes : List Nat}
    (hd : n.data = some d) (hu : d.videoUrl = some url) (ht : n.type = videoType)
    (hp : resPrefix.isPrefixOf url = true)
    (hrm : rm (stripResourcePrefix url) = some res) (him : im (stripResourcePrefix url) = some newId)
    (hne : res.data ≠ []) (hnid : newId ≠ []) (hdec : atobDecode res.data = some bytes) :
    restoreNode rm im n =
      ({ n with data := some { d with videoUrl := some (resPrefix ++ newId),
                                      originalFilename := some res.filename } },
       some (newId, { data := bytes, type := res.mimeType })) := by
  unfold restoreNode
  rw [if_pos ht]
  simp only [hd, hu]
  rw [if_pos hp]
  simp only [hrm, him]
  rw [if_pos ⟨hne, hnid⟩]
  simp only [hdec]

/-- With nodup node ids, the resource collected for a node is the one that
the export rewrite finds for it. -/
lemma find?_collectResources {db : VideoDB} :
    ∀ {nodes : List RFNode} {n : RFNode} {res : Resource},
      (nodes.map RFNode.id).Nodup → n ∈ nodes → collectOne db n = some res →
      (collectResources db nodes).find? (fun r => r.nodeId == n.id) = some res := by
  intro nodes
  induction nodes with
  | nil => intro n res _ hmem; simp at hmem
  | cons m t ih =>
    intro n res hnd hmem hcoll
    have hnodup := hnd
    rw [List.map_cons, List.nodup_cons] at hnodup
    rcases List.mem_cons.mp hmem with rfl | hmem'
    · unfold collectResources
      rw [List.filterMap_cons, hcoll]
      simp only [List.find?_cons]
      have : (res.nodeId == n.id) = true := beq_iff_eq.mpr (collectOne_nodeId hcoll)
      rw [this]
    · have hne : m.id ≠ n.id := by
        intro hcon
        exact hnodup.1 (hcon ▸ List.mem_map_of_mem RFNode.id hmem')
      unfold collectResources
      rw [List.filterMap_cons]
      cases hm : collectOne db m with
      | none => exact ih hnodup.2 hmem' hcoll
      | some resm =>
        simp only [List.find?_cons]
        have : (resm.nodeId == n.id) = false := by
          rw [beq_eq_false_iff_ne, collectOne_nodeId hm]
          exact hne
        rw [this]
        exact ih hnodup.2 hmem' hcoll

/-- Every collected resource with a given id was read from that id's store
record: its payload and mime type are determined by the store. -/
lemma collectResources_uniform {db : VideoDB} {nodes : List RFNode} {res : Resource}
    {rid : Str} {v : Video} (hmem : res ∈ collectResources db nodes) (hid : res.id = rid)
    (hdb : db rid = .ok v) :
    res.data = base64Encode v.data ∧ res.mimeType = v.type ∧ res.data ≠ [] := by
  obtain ⟨n, _, hcoll⟩ := List.mem_filterMap.mp hmem
  obtain ⟨v', hdb', hdata, hmime, hne⟩ := collectOne_shape hcoll
  rw [hid, hdb] at hdb'
  obtain rfl : v = v' := FetchResult.ok.inj hdb'
  exact ⟨hdata, hmime, hne⟩

lemma buildResourceMap_shape {rs : List Resource} {rid : Str} {res : Resource}
    (h : buildResourceMap rs rid = some res) : res ∈ rs ∧ res.id = rid := by
  have hmem := lookupLast_mem h
  obtain ⟨r, hr, heq⟩ := List.mem_map.mp hmem
  obtain ⟨h1, h2⟩ := Prod.mk.inj heq
  exact ⟨h2 ▸ hr, h2 ▸ h1⟩

lemma buildResourceMap_isSome {rs : List Resource} {res : Resource} (h : res ∈ rs) :
    ∃ res', buildResourceMap rs res.id = some res' := by
  apply mem_lookupLast_isSome (v := res)
  exact List.mem_map_of_mem _ h

lemma buildResourceIdMap_shape {env : ImportEnv} {rs : List Resource} {rid nid : Str}
    (h : buildResourceIdMap env rs rid = some nid) :
    ∃ k, k < rs.length ∧ nid = mkResourceId (env.resourceUuid k) ∧
      ∃ res, rs.get? k = some res ∧ res.id = rid := by
  have hmem := lookupLast_mem h
  obtain ⟨⟨k, r⟩, hr, heq⟩ := List.mem_map.mp hmem
  obtain ⟨h1, h2⟩ := Prod.mk.inj heq
  obtain ⟨hk, hkr⟩ := List.mem_enum hr
  refine ⟨k, hk, h2.symm, r, ?_, h1⟩
  rw [List.get?_eq_getElem?, List.getElem?_eq_getElem hk, hkr]

lemma buildResourceIdMap_isSome {env : ImportEnv} {rs : List Resource} {res : Resource}
    (h : res ∈ rs) : ∃ nid, buildResourceIdMap env rs res.id = some nid := by
  obtain ⟨k, hk⟩ := List.get?_of_mem h
  have henum : (k, res) ∈ rs.enum := by
    apply List.get?_mem (n := k)
    rw [List.get?_eq_getElem?, List.getElem?_enum]
    rw [List.get?_eq_getElem?] at hk
    rw [hk]
    rfl
  apply mem_lookupLast_isSome (v := mkResourceId (env.resourceUuid k))
  exact List.mem_map_of_mem _ henum

/-- Under an injective mint supply, two recorded ids mapped to the same fresh
id are equal. -/
lemma buildResourceIdMap_inj {env : ImportEnv} {rs : List Resource} {r1 r2 nid : Str}
    (hmint : ∀ j k, j < rs.length → k < rs.length →
      mkResourceId (env.resourceUuid j) = mkResourceId (env.resourceUuid k) → j = k)
    (h1 : buildResourceIdMap env rs r1 = some nid)
    (h2 : buildResourceIdMap env rs r2 = some nid) : r1 = r2 := by
  obtain ⟨j, hj, hnj, resj, hgj, hidj⟩ := buildResourceIdMap_shape h1
  obtain ⟨k, hk, hnk, resk, hgk, hidk⟩ := buildResourceIdMap_shape h2
  have : j = k := hmint j k hj hk (hnj ▸ hnk ▸ rfl)
  subst this
  rw [hgj] at hgk
  obtain rfl := Option.some.inj hgk
  rw [← hidj, ← hidk]

/-! ## Lemmas about import -/
lemma normalizeEnvelope_project {env : ImportEnv} {d : ImportData} {rp : RawProject}
    (hp : d.project = some rp) :
    normalizeEnvelope env d =
      .ok { id := rp.id.getD [], name := rp.name.getD [], description := rp.description.getD [],
            nodes := rp.nodes, edges := rp.edges, createdAt := rp.createdAt,
            updatedAt := rp.updatedAt } := by
  simp only [normalizeEnvelope, hp]

lemma normalizeEnvelope_scenario {env : ImportEnv} {d : ImportData} {sc : RawScenario}
    {ns : List RFNode} (hp : d.project = none) (hsc : d.scenario = some sc)
    (hns : sc.nodes = some ns) :
    normalizeEnvelope env d =
      .ok { id := env.projectUuid, name := jsOr d.name projetImporte,
            description := jsOr d.description [], nodes := some ns,
            edges := some (sc.edges.getD []), createdAt := some env.now,
            updatedAt := some env.now } := by
  simp only [normalizeEnvelope, hp, hsc, hns]

lemma importProject_ok {env : ImportEnv} {d : ImportData} {pre : PreProject}
    (h : normalizeEnvelope env d = .ok pre) :
    importProject env (.object d) =
      .ok { project := (restoreResources env (d.resources.getD []) (patchProject env d pre)).1,
            stored := (restoreResources env (d.resources.getD []) (patchProject env d pre)).2 } := by
  simp only [importProject, h]

lemma restoreResources_nonempty {env : ImportEnv} {rs : List Resource} {p : Project}
    (h : rs ≠ []) :
    restoreResources env rs p =
      ({ p with nodes := (p.nodes.map
           (restoreNode (buildResourceMap rs) (buildResourceIdMap env rs))).map Prod.fst },
       ((p.nodes.map
           (restoreNode (buildResourceMap rs) (buildResourceIdMap env rs))).filterMap
             Prod.snd).reverse) := by
  unfold restoreResources
  rw [if_pos h]

lemma restoreResources_fst_meta (env : ImportEnv) (rs : List Resource) (p : Project) :
    (restoreResources env rs p).1.id = p.id ∧
    (restoreResources env rs p).1.createdAt = p.createdAt ∧
    (restoreResources env rs p).1.updatedAt = p.updatedAt ∧
    (restoreResources env rs p).1.edges = p.edges := by
  unfold restoreResources
  split
  · exact ⟨rfl, rfl, rfl, rfl⟩
  · exact ⟨rfl, rfl, rfl, rfl⟩

lemma restoreResources_stored_mem {env : ImportEnv} {rs : List Resource} {p : Project}
    {e : Str × StoredVideo} (hmem : e ∈ (restoreResources env rs p).2) :
    ∃ m ∈ p.nodes, (restoreNode (buildResourceMap rs) (buildResourceIdMap env rs) m).2 = some e := by
  unfold restoreResources at hmem
  split at hmem
  · simp only [List.mem_reverse, List.mem_filterMap, List.mem_map] at hmem
    obtain ⟨st, ⟨m, hm, hst⟩, hsnd⟩ := hmem
    exact ⟨m, hm, by rw [hst]; exact hsnd⟩
  · simp at hmem

/-- Every record stored under a given fresh id carries the bytes of the
store record that the archive's resources with the matching recorded id were
read from: colliding stores write identical bytes. -/
lemma restoreResources_stored_uniform {env : ImportEnv} {rs : List Resource} {p : Project}
    {nid : Str} {sv : StoredVideo} {rid : Str} {v : Video}
    (hmint : ∀ j k, j < rs.length → k < rs.length →
      mkResourceId (env.resourceUuid j) = mkResourceId (env.resourceUuid k) → j = k)
    (hmem : (nid, sv) ∈ (restoreResources env rs p).2)
    (him : buildResourceIdMap env rs rid = some nid)
    (hall : ∀ res ∈ rs, res.id = rid → res.data = base64Encode v.data)
    (hbytes : ∀ b ∈ v.data, b < 256) :
    sv.data = v.data := by
  obtain ⟨m, _, hsnd⟩ := restoreResources_stored_mem hmem
  obtain ⟨d, url, res, _, _, _, _, hrm, him', _, hdec, _⟩ := restoreNode_snd_shape hsnd
  have hrid : stripResourcePrefix url = rid := buildResourceIdMap_inj hmint him' him
  obtain ⟨hres_mem, hres_id⟩ := buildResourceMap_shape hrm
  have hdata : res.data = base64Encode v.data := hall res hres_mem (hres_id.trans hrid)
  rw [hdata, atobDecode_base64Encode v.data hbytes] at hdec
  exact (Option.some.inj hdec).symm

lemma collectOne_of_resolvable {db : VideoDB} {n : RFNode} {d : NodeData} {url : Str}
    {v : Video} (hd : n.data = some d) (hu : d.videoUrl = some url) (ht : n.type = videoType)
    (hp : resPrefix.isPrefixOf url = true) (hurlne : url ≠ [])
    (hdb : db (stripResourcePrefix url) = .ok v) (hv : v.data ≠ []) :
    collectOne db n = some { id := stripResourcePrefix url, data := base64Encode v.data,
                             type := videoType, nodeId := n.id, mimeType := v.type,
                             filename := jsOr d.originalFilename defaultVideoFilename } := by
  unfold collectOne
  simp only [hd, hu, hdb]
  rw [if_pos ⟨ht, hurlne⟩, if_pos hp, if_neg]
  exact base64Encode_ne_nil hv

lemma collectOne_failure {db : VideoDB} {n : RFNode} {d : NodeData} {url : Str}
    (hd : n.data = some d) (hu : d.videoUrl = some url)
    (hdb : db (stripResourcePrefix url) = .failure) : collectOne db n = none := by
  unfold collectOne
  simp only [hd, hu, hdb]
  repeat' split
  all_goals rfl

lemma exportRewriteNode_not_found {rs : List Resource} {n : RFNode}
    (h : ∀ r ∈ rs, r.nodeId ≠ n.id) : exportRewriteNode rs n = n := by
  have hf : rs.find? (fun r => r.nodeId == n.id) = none := by
    rw [List.find?_eq_none]
    intro r hr
    simpa [beq_eq_false_iff_ne] using h r hr
  unfold exportRewriteNode
  simp only [hf]
  repeat' split
  all_goals rfl

lemma exportRewriteNode_found {rs : List Resource} {n : RFNode} {d : NodeData} {url : Str}
    {res : Resource} (hd : n.data = some d) (hu : d.videoUrl = some url)
    (ht : n.type = videoType) (hurlne : url ≠ [])
    (hfind : rs.find? (fun r => r.nodeId == n.id) = some res) :
    exportRewriteNode rs n =
      { n with data := some { d with videoUrl := some (resPrefix ++ res.id),
                                     originalFilename := some res.filename } } := by
  unfold exportRewriteNode
  simp only [hd, hu, hfind]
  rw [if_pos ⟨ht, hurlne⟩]

/-- A scenario-shape import, with the patched project abstracted: the result's
nodes are the restoration map over the scenario nodes, and the stored list is
the reversed sequence of store contributions. -/
lemma importProject_scenario_shape {env : ImportEnv} {d : ImportData} {sc : RawScenario}
    {ns : List RFNode} (hp : d.project = none) (hsc : d.scenario = some sc)
    (hns : sc.nodes = some ns) (hrs : d.resources.getD [] ≠ []) :
    ∃ (R : ImportResult) (q : Project),
      importProject env (.object d) = .ok R ∧
      q.nodes = ns ∧
      q.edges = sc.edges.getD [] ∧
      R.project = { q with nodes :=
        ((ns.map (restoreNode (buildResourceMap (d.resources.getD []))
          (buildResourceIdMap env (d.resources.getD [])))).map Prod.fst) } ∧
      R.stored = ((ns.map (restoreNode (buildResourceMap (d.resources.getD []))
        (buildResourceIdMap env (d.resources.getD [])))).filterMap Prod.snd).reverse := by
  have h := importProject_ok (@normalizeEnvelope_scenario env d sc ns hp hsc hns)
  rw [restoreResources_nonempty hrs] at h
  exact ⟨_, patchProject env d ⟨env.projectUuid, jsOr d.name projetImporte,
    jsOr d.description [], some ns, some (sc.edges.getD []), some env.now, some env.now⟩,
    h, rfl, rfl, rfl, rfl⟩

/-- Every entry of the stored list under a given fresh id carries the decoded
bytes of the archive resources with the matching recorded id. -/
lemma stored_steps_uniform {env : ImportEnv} {rs : List Resource} {nodes : List RFNode}
    {nid : Str} {sv : StoredVideo} {rid : Str} {v : Video}
    (hmint : ∀ j k, j < rs.length → k < rs.length →
      mkResourceId (env.resourceUuid j) = mkResourceId (env.resourceUuid k) → j = k)
    (hmem : (nid, sv) ∈ ((nodes.map (restoreNode (buildResourceMap rs)
      (buildResourceIdMap env rs))).filterMap Prod.snd).reverse)
    (him : buildResourceIdMap env rs rid = some nid)
    (hall : ∀ res ∈ rs, res.id = rid → res.data = base64Encode v.data)
    (hbytes : ∀ b ∈ v.data, b < 256) :
    sv.data = v.data := by
  rw [List.mem_reverse] at hmem
  obtain ⟨st, hst, hsnd⟩ := List.mem_filterMap.mp hmem
  obtain ⟨m, _, hm⟩ := List.mem_map.mp hst
  rw [← hm] at hsnd
  obtain ⟨d, url, res, _, _, _, _, hrm, him', _, hdec, _⟩ := restoreNode_snd_shape hsnd
  have hrid : stripResourcePrefix url = rid := buildResourceIdMap_inj hmint him' him
  obtain ⟨hres_mem, hres_id⟩ := buildResourceMap_shape hrm
  have hdata : res.data = base64Encode v.data := hall res hres_mem (hres_id.trans hrid)
  rw [hdata, atobDecode_base64Encode v.data hbytes] at hdec
  exact (Option.some.inj hdec).symm

/-- C4: for every project, every resource of a metadata-only export has an
empty `data` field — metadata-only export never embeds asset bytes. -/
theorem metadata_export_never_embeds_bytes (db : VideoDB) (P : Project) (E : ExportData)
    (hE : exportProject db P false = .ok E) :
    ∀ r ∈ E.resources, r.data = [] := by
  intro r hr
  have hr' : r ∈ collectResourcesMetadata db P.nodes := by
    unfold exportProject at hE
    obtain rfl := Except.ok.inj hE
    simpa using hr
  obtain ⟨n, _, hcoll⟩ := List.mem_filterMap.mp hr'
  exact collectMetaOne_data hcoll

theorem metadata_export_never_embeds_bytes_witness :
    exportProject dbW projW false = .ok exportMetaW ∧
    resMetaW ∈ exportMetaW.resources ∧ resMetaW.data = [] :=
  ⟨rfl, by decide,
    metadata_export_never_embeds_bytes dbW projW exportMetaW rfl resMetaW (by decide)⟩

/-- C3 counterexample: the 2.0.0 codec's import performs no version check at
all — an archive declaring version `3.0.0` is accepted by the codec whose own
major version is `2`, instead of failing with `IncompatibleVersion`. -/
theorem version_gate_counterexample :
    (importProject envW (.object d3W)).toOption.isSome = true ∧
    d3W.version = some ("3.0.0".toList) ∧ V1.major exportVersion = "2".toList := by
  decide

lemma buildV1Entries_ok_iff (env : V1.V1Env) (l : List (Nat × V1.V1Resource)) :
    (∃ es, V1.buildV1Entries env l = .ok es) ↔
      ∀ kr ∈ l, ∃ u, V1.createBlobUrl env kr.1 kr.2.data = .ok u := by
  induction l with
  | nil =>
    constructor
    · intro _ kr hkr
      exact absurd hkr (List.not_mem_nil kr)
    · intro _
      exact ⟨[], rfl⟩
  | cons kr tl ih =>
    constructor
    · rintro ⟨es, hes⟩
      simp only [V1.buildV1Entries] at hes
      intro p hp
      cases hc : V1.createBlobUrl env kr.1 kr.2.data with
      | error e =>
        rw [hc] at hes
        exact Except.noConfusion hes
      | ok u =>
        rw [hc] at hes
        rcases List.mem_cons.mp hp with rfl | hptl
        · exact ⟨u, hc⟩
        · cases ht : V1.buildV1Entries env tl with
          | error e =>
            rw [ht] at hes
            exact Except.noConfusion hes
          | ok m =>
            exact ih.mp ⟨m, ht⟩ p hptl
    · intro hall
      obtain ⟨u, hu⟩ := hall kr (List.mem_cons_self kr tl)
      obtain ⟨m, hm⟩ := ih.mpr (fun p hp => hall p (List.mem_cons_of_mem kr hp))
      exact ⟨(kr.2.hash, u) :: m, by simp only [V1.buildV1Entries, hu, hm]⟩

/-- C3 amended: the 1.0.0 variant's import fails with the incompatible-version
error exactly when the archive's major version differs from the codec's, and
succeeds exactly when the majors are equal and fetching every resource
payload resolves (a compatible archive can still fail, but only through a
`fetch` rejection in `createBlobUrl`, never through the version gate); the
2.0.0 variant's import checks no version (see the counterexample). -/
theorem version_gate_amended (env : V1.V1Env) (d : V1.ProjectExport) :
    (V1.importProject env d =
        .error (.incompatibleVersion (V1.incompatibleVersionMsg d.version)) ↔
      V1.isVersionCompatible d.version = false) ∧
    ((∃ r, V1.importProject env d = .ok r) ↔
      (V1.isVersionCompatible d.version = true ∧
        ∀ kr ∈ d.resources.enum, ∃ u, V1.createBlobUrl env kr.1 kr.2.data = .ok u)) := by
  constructor
  · constructor
    · intro hr
      by_contra hc
      rw [Bool.not_eq_false] at hc
      simp only [V1.importProject, hc] at hr
      cases ht : V1.buildV1Entries env d.resources.enum with
      | error e =>
        rw [ht] at hr
        exact V1.V1Error.noConfusion (Except.error.inj hr)
      | ok m =>
        rw [ht] at hr
        exact Except.noConfusion hr
    · intro hc
      simp [V1.importProject, hc]
  · constructor
    · rintro ⟨r, hr⟩
      by_cases hc : V1.isVersionCompatible d.version = true
      swap
      · rw [Bool.not_eq_true] at hc
        simp only [V1.importProject, hc] at hr
        exact absurd hr (by simp)
      refine ⟨hc, (buildV1Entries_ok_iff env d.resources.enum).mp ?_⟩
      simp only [V1.importProject, hc] at hr
      cases ht : V1.buildV1Entries env d.resources.enum with
      | error e =>
        rw [ht] at hr
        exact Except.noConfusion hr
      | ok m =>
        exact ⟨m, rfl⟩
    · rintro ⟨hc, hall⟩
      obtain ⟨es, hes⟩ := (buildV1Entries_ok_iff env d.resources.enum).mpr hall
      have hok : V1.importProject env d =
          .ok { project := { id := env.uuid, name := d.name, description := d.description,
                             createdAt := d.metaCreatedAt, updatedAt := d.metaUpdatedAt,
                             nodes := (d.nodes.map (V1.restoreV1Node
                               (fun k => lookupLast es k))).map V1.V1Node.toRF,
                             edges := d.edges },
                nodes := d.nodes.map (V1.restoreV1Node (fun k => lookupLast es k)),
                edges := d.edges } := by
        simp [V1.importProject, hc, hes]
      exact ⟨_, hok⟩

theorem version_gate_amended_witness :
    V1.isVersionCompatible ("3.0.0".toList) = false ∧
    V1.importProject v1envW v1badW =
      .error (.incompatibleVersion (V1.incompatibleVersionMsg ("3.0.0".toList))) :=
  ⟨by decide, (version_gate_amended v1envW v1badW).1.mpr (by decide)⟩

/-- C7 counterexample: the IndexedDB variant's `loadProject` of an id with no
stored document resolves successfully with `null` — it does not fail with
`NotFound`. -/
theorem load_notfound_counterexample :
    IDB.loadProject [] "missing".toList = .ok none := rfl

/-- C7 amended: the localStorage variant's `loadProject` fails with the
`Project not found` error exactly on missing ids and returns the stored
project otherwise; the IndexedDB variant always resolves successfully,
yielding `null` for a missing id and the stored project otherwise. -/
theorem load_notfound_amended :
    (∀ (s : LS.State) (id : Str), s.data.lookup id = none →
       LS.loadProject s id = .error LS.projectNotFoundMsg)
  ∧ (∀ (s : LS.State) (id : Str) (p : Project), s.data.lookup id = some p →
       LS.loadProject s id = .ok p)
  ∧ (∀ (store : IDB.Store) (id : Str) (p : Project),
       store.find? (fun q => q.id == id) = some p → IDB.loadProject store id = .ok (some p))
  ∧ (∀ (store : IDB.Store) (id : Str), ∃ o, IDB.loadProject store id = .ok o) := by
  refine ⟨?_, ?_, ?_, ?_⟩
  · intro s id h
    simp only [LS.loadProject, h]
  · intro s id p h
    simp only [LS.loadProject, h]
  · intro store id p h
    simp only [IDB.loadProject, h]
  · intro store id
    exact ⟨_, rfl⟩

theorem load_notfound_amended_witness :
    (LS.State.mk [] []).data.lookup ("x".toList) = none ∧
    LS.loadProject ⟨[], []⟩ "x".toList = .error LS.projectNotFoundMsg :=
  ⟨by decide, load_notfound_amended.1 ⟨[], []⟩ "x".toList (by decide)⟩

/-- C8 counterexample: importing a legacy project-shape archive restores the
archive's embedded timestamps (`createdAt = 5`, `updatedAt = 7`) instead of
resetting both to the import-time clock (`42`). -/
theorem import_timestamps_counterexample :
    (importProject envW (.object dC8W)).toOption.map
        (fun r => (r.project.createdAt, r.project.updatedAt)) = some (5, 7) ∧
    envW.now = 42 ∧ ((5 : Nat), (7 : Nat)) ≠ ((42 : Nat), (42 : Nat)) := by
  decide

/-- C8 amended: a scenario-shape archive's reconstructed project has both
timestamps set to the import-time clock; a legacy project-shape archive's
embedded timestamps, when present, are kept (the clock is used only for
absent fields). -/
theorem import_timestamps_amended (env : ImportEnv) (d : ImportData) :
    (∀ (sc : RawScenario) (ns : List RFNode), d.project = none → d.scenario = some sc →
       sc.nodes = some ns → ∃ r, importProject env (.object d) = .ok r ∧
         r.project.createdAt = env.now ∧ r.project.updatedAt = env.now)
  ∧ (∀ (rp : RawProject) (t u : Nat), d.project = some rp → rp.createdAt = some t →
       rp.updatedAt = some u → ∃ r, importProject env (.object d) = .ok r ∧
         r.project.createdAt = t ∧ r.project.updatedAt = u) := by
  constructor
  · intro sc ns hp hsc hns
    refine ⟨_, importProject_ok (normalizeEnvelope_scenario hp hsc hns), ?_, ?_⟩
    · rw [show (ImportResult.mk _ _).project = _ from rfl,
        (restoreResources_fst_meta env (d.resources.getD []) _).2.1]
      simp [patchProject]
    · rw [show (ImportResult.mk _ _).project = _ from rfl,
        (restoreResources_fst_meta env (d.resources.getD []) _).2.2.1]
      simp [patchProject]
  · intro rp t u hp hct hut
    refine ⟨_, importProject_ok (normalizeEnvelope_project hp), ?_, ?_⟩
    · rw [show (ImportResult.mk _ _).project = _ from rfl,
        (restoreResources_fst_meta env (d.resources.getD []) _).2.1]
      simp [patchProject, hct]
    · rw [show (ImportResult.mk _ _).project = _ from rfl,
        (restoreResources_fst_meta env (d.resources.getD []) _).2.2.1]
      simp [patchProject, hut]

theorem import_timestamps_amended_witness :
    dScW.project = none ∧ dScW.scenario = some scW ∧ scW.nodes = some [] ∧
    (∃ r, importProject envW (.object dScW) = .ok r ∧
      r.project.createdAt = envW.now ∧ r.project.updatedAt = envW.now) :=
  ⟨rfl, rfl, rfl, (import_timestamps_amended envW dScW).1 scW [] rfl rfl rfl⟩

/-- C2 counterexample: importing a legacy project-shape archive reuses the
project id `X` embedded in the archive — `import(A).project.id` equals the id
recorded in `A`. -/
theorem import_id_freshness_counterexample :
    (importProject envW (.object dC8W)).toOption.map (fun r => r.project.id)
      = some ("X".toList) ∧
    dC8W.project = some rpC8W ∧ rpC8W.id = some ("X".toList) := by
  decide

/-- C2 amended: for every archive whose import succeeds, whatever its shape,
every restored asset is stored under an id drawn from the fresh mint supply —
hence never under an id recorded in the archive whenever the supply avoids
those ids — and a scenario-shape archive (which records no project id)
additionally gets the freshly minted uuid as its project id.  Legacy
project-shape archives reuse their embedded project id (see the
counterexample). -/
theorem import_id_freshness_amended (env : ImportEnv) (d : ImportData) (r : ImportResult)
    (himp : importProject env (.object d) = .ok r) :
    (∀ e ∈ r.stored, ∃ k, k < (d.resources.getD []).length ∧
      e.1 = mkResourceId (env.resourceUuid k)) ∧
    ((∀ k, mkResourceId (env.resourceUuid k) ∉ (d.resources.getD []).map Resource.id) →
      ∀ e ∈ r.stored, e.1 ∉ (d.resources.getD []).map Resource.id) ∧
    (∀ (sc : RawScenario) (ns : List RFNode), d.project = none → d.scenario = some sc →
      sc.nodes = some ns → env.projectUuid ≠ [] → r.project.id = env.projectUuid) := by
  simp only [importProject] at himp
  cases hn : normalizeEnvelope env d with
  | error e =>
    rw [hn] at himp
    exact Except.noConfusion himp
  | ok pre =>
    rw [hn] at himp
    obtain rfl := Except.ok.inj himp
    refine ⟨?_, ?_, ?_⟩
    · rintro ⟨nid, sv⟩ he
      obtain ⟨m, _, hsnd⟩ := restoreResources_stored_mem he
      obtain ⟨_, _, _, _, _, _, _, _, him, _, _, _⟩ := restoreNode_snd_shape hsnd
      obtain ⟨k, hk, hnk, _⟩ := buildResourceIdMap_shape him
      exact ⟨k, hk, hnk⟩
    · rintro hf ⟨nid, sv⟩ he
      obtain ⟨m, _, hsnd⟩ := restoreResources_stored_mem he
      obtain ⟨_, _, _, _, _, _, _, _, him, _, _, _⟩ := restoreNode_snd_shape hsnd
      obtain ⟨k, _, hnk, _⟩ := buildResourceIdMap_shape him
      rw [hnk]
      exact hf k
    · intro sc ns hp hsc hns huuid
      have hsceq := @normalizeEnvelope_scenario env d sc ns hp hsc hns
      obtain rfl := Except.ok.inj (hn.symm.trans hsceq)
      rw [show (ImportResult.mk _ _).project = _ from rfl,
        (restoreResources_fst_meta env (d.resources.getD []) _).1]
      simp [patchProject, huuid]

theorem import_id_freshness_amended_witness :
    (importProject envW (.object dC2W) = .ok rC2W ∧
      rC2W.stored.map Prod.fst = [mkResourceId (envW.resourceUuid 0)] ∧
      mkResourceId (envW.resourceUuid 0) ∉ (dC2W.resources.getD []).map Resource.id) ∧
    ((∀ e ∈ rC2W.stored, ∃ k, k < (dC2W.resources.getD []).length ∧
        e.1 = mkResourceId (envW.resourceUuid k)) ∧
      ((∀ k, mkResourceId (envW.resourceUuid k) ∉ (dC2W.resources.getD []).map Resource.id) →
        ∀ e ∈ rC2W.stored, e.1 ∉ (dC2W.resources.getD []).map Resource.id)) ∧
    (importProject envW (.object dScW) = .ok rScW ∧
      rScW.project.id = envW.projectUuid) :=
  ⟨⟨rfl, by decide, by decide⟩,
    ⟨(import_id_freshness_amended envW dC2W rC2W rfl).1,
     (import_id_freshness_amended envW dC2W rC2W rfl).2.1⟩,
    ⟨rfl, (import_id_freshness_amended envW dScW rScW rfl).2.2 scW [] rfl rfl rfl (by decide)⟩⟩

/-- C9: import accepts both envelope shapes — the current
`{version, scenario, resources}` shape and the legacy `{project, resources}`
shape — normalizing each into the same pre-project representation and running
the identical resource-restoration pipeline on it; unparseable input fails
with the invalid-JSON error, a non-object with the invalid-format error, and
an object exposing neither a `project` key nor `scenario.nodes` with the
missing-project-data error. -/
theorem import_envelope_shapes (env : ImportEnv) :
    importProject env .parseError = .error invalidJsonMsg
  ∧ importProject env .nonObject = .error invalidFormatMsg
  ∧ (∀ d : ImportData, d.project = none →
      (d.scenario = none ∨ ∃ sc, d.scenario = some sc ∧ sc.nodes = none) →
      importProject env (.object d) = .error missingProjectMsg)
  ∧ (∀ (d : ImportData) (rp : RawProject), d.project = some rp →
      importProject env (.object d) = .ok
        { project := (restoreResources env (d.resources.getD [])
            (patchProject env d ⟨rp.id.getD [], rp.name.getD [], rp.description.getD [],
              rp.nodes, rp.edges, rp.createdAt, rp.updatedAt⟩)).1,
          stored := (restoreResources env (d.resources.getD [])
            (patchProject env d ⟨rp.id.getD [], rp.name.getD [], rp.description.getD [],
              rp.nodes, rp.edges, rp.createdAt, rp.updatedAt⟩)).2 })
  ∧ (∀ (d : ImportData) (sc : RawScenario) (ns : List RFNode), d.project = none →
      d.scenario = some sc → sc.nodes = some ns →
      importProject env (.object d) = .ok
        { project := (restoreResources env (d.resources.getD [])
            (patchProject env d ⟨env.projectUuid, jsOr d.name projetImporte,
              jsOr d.description [], some ns, some (sc.edges.getD []), some env.now,
              some env.now⟩)).1,
          stored := (restoreResources env (d.resources.getD [])
            (patchProject env d ⟨env.projectUuid, jsOr d.name projetImporte,
              jsOr d.description [], some ns, some (sc.edges.getD []), some env.now,
              some env.now⟩)).2 }) := by
  refine ⟨rfl, rfl, ?_, ?_, ?_⟩
  · intro d hp hsc
    have hnorm : normalizeEnvelope env d = .error missingProjectMsg := by
      rcases hsc with h | ⟨sc, hs, hn⟩
      · simp only [normalizeEnvelope, hp, h]
      · simp only [normalizeEnvelope, hp, hs, hn]
    simp only [importProject, hnorm]
  · intro d rp hp
    exact importProject_ok (normalizeEnvelope_project hp)
  · intro d sc ns hp hsc hns
    exact importProject_ok (normalizeEnvelope_scenario hp hsc hns)

theorem import_envelope_shapes_witness :
    dBadW.project = none ∧ dBadW.scenario = none ∧
    importProject envW (.object dBadW) = .error missingProjectMsg :=
  ⟨rfl, rfl, (import_envelope_shapes envW).2.2.1 dBadW rfl (Or.inl rfl)⟩

/-- C6: with three video nodes of which exactly the middle one's asset read
fails, a full export succeeds, its archive carries exactly the two resources
of the successful nodes, those two nodes' references are rewritten to
`resource://` URIs of their resources, and the failing node is left exactly
as it was. -/
theorem export_partial_failure (db : VideoDB) (P : Project)
    (n1 n2 n3 : RFNode) (d1 d2 d3 : NodeData) (r1 r2 r3 : Str) (v1 v3 : Video)
    (hP : P.nodes = [n1, n2, n3])
    (ht1 : n1.type = videoType) (hd1 : n1.data = some d1)
    (hu1 : d1.videoUrl = some (resPrefix ++ r1))
    (_ht2 : n2.type = videoType) (hd2 : n2.data = some d2)
    (hu2 : d2.videoUrl = some (resPrefix ++ r2))
    (ht3 : n3.type = videoType) (hd3 : n3.data = some d3)
    (hu3 : d3.videoUrl = some (resPrefix ++ r3))
    (hdb1 : db r1 = .ok v1) (hv1 : v1.data ≠ [])
    (hdb2 : db r2 = .failure)
    (hdb3 : db r3 = .ok v3) (hv3 : v3.data ≠ [])
    (hid12 : n1.id ≠ n2.id) (hid13 : n1.id ≠ n3.id) (hid23 : n2.id ≠ n3.id) :
    ∃ E, exportProject db P true = .ok E ∧
      E.resources.length = 2 ∧
      E.resources.map Resource.id = [r1, r3] ∧
      E.resources.map Resource.nodeId = [n1.id, n3.id] ∧
      E.scenarioNodes.get? 1 = some n2 ∧
      (E.scenarioNodes.get? 0).bind (fun m => m.data.bind NodeData.videoUrl)
        = some (resPrefix ++ r1) ∧
      (E.scenarioNodes.get? 2).bind (fun m => m.data.bind NodeData.videoUrl)
        = some (resPrefix ++ r3) := by
  obtain ⟨pid, pname, pdesc, pca, pua, pnodes, pedges⟩ := P
  replace hP : pnodes = [n1, n2, n3] := hP
  subst hP
  have hdb1' : db (stripResourcePrefix (resPrefix ++ r1)) = .ok v1 := by
    rw [stripResourcePrefix_append]
    exact hdb1
  have hdb2' : db (stripResourcePrefix (resPrefix ++ r2)) = .failure := by
    rw [stripResourcePrefix_append]
    exact hdb2
  have hdb3' : db (stripResourcePrefix (resPrefix ++ r3)) = .ok v3 := by
    rw [stripResourcePrefix_append]
    exact hdb3
  have hc1 : collectOne db n1 = some (collectedResource r1 v1 n1 d1) := by
    have h0 := collectOne_of_resolvable hd1 hu1 ht1 (isPrefixOf_append _ _)
      (resPrefix_append_ne_nil _) hdb1' hv1
    rw [stripResourcePrefix_append] at h0
    exact h0
  have hc2 : collectOne db n2 = none := collectOne_failure hd2 hu2 hdb2'
  have hc3 : collectOne db n3 = some (collectedResource r3 v3 n3 d3) := by
    have h0 := collectOne_of_resolvable hd3 hu3 ht3 (isPrefixOf_append _ _)
      (resPrefix_append_ne_nil _) hdb3' hv3
    rw [stripResourcePrefix_append] at h0
    exact h0
  have hrs : collectResources db [n1, n2, n3] =
      [collectedResource r1 v1 n1 d1, collectedResource r3 v3 n3 d3] := by
    unfold collectResources
    simp only [List.filterMap_cons, hc1, hc2, hc3, List.filterMap_nil]
  have hrw2 : exportRewriteNode (collectResources db [n1, n2, n3]) n2 = n2 := by
    apply exportRewriteNode_not_found
    rw [hrs]
    intro r hr
    rcases List.mem_cons.mp hr with rfl | hr'
    · exact hid12
    · rcases List.mem_cons.mp hr' with rfl | hr''
      · exact hid23.symm
      · simp at hr''
  have hf1 : (collectResources db [n1, n2, n3]).find? (fun r => r.nodeId == n1.id)
      = some (collectedResource r1 v1 n1 d1) := by
    rw [hrs]
    simp only [List.find?_cons]
    rw [show ((collectedResource r1 v1 n1 d1).nodeId == n1.id) = true from beq_iff_eq.mpr rfl]
  have hf3 : (collectResources db [n1, n2, n3]).find? (fun r => r.nodeId == n3.id)
      = some (collectedResource r3 v3 n3 d3) := by
    rw [hrs]
    simp only [List.find?_cons]
    rw [show ((collectedResource r1 v1 n1 d1).nodeId == n3.id) = false
        from beq_eq_false_iff_ne.mpr hid13]
    rw [show ((collectedResource r3 v3 n3 d3).nodeId == n3.id) = true from beq_iff_eq.mpr rfl]
  have hrw1 : exportRewriteNode (collectResources db [n1, n2, n3]) n1 =
      { n1 with data := some { d1 with
          videoUrl := some (resPrefix ++ (collectedResource r1 v1 n1 d1).id)
          originalFilename := some (collectedResource r1 v1 n1 d1).filename } } :=
    exportRewriteNode_found hd1 hu1 ht1 (resPrefix_append_ne_nil _) hf1
  have hrw3 : exportRewriteNode (collectResources db [n1, n2, n3]) n3 =
      { n3 with data := some { d3 with
          videoUrl := some (resPrefix ++ (collectedResource r3 v3 n3 d3).id)
          originalFilename := some (collectedResource r3 v3 n3 d3).filename } } :=
    exportRewriteNode_found hd3 hu3 ht3 (resPrefix_append_ne_nil _) hf3
  refine ⟨_, rfl, ?_, ?_, ?_, ?_, ?_, ?_⟩
  · show (collectResources db [n1, n2, n3]).length = 2
    rw [hrs]
    rfl
  · show (collectResources db [n1, n2, n3]).map Resource.id = [r1, r3]
    rw [hrs]
    rfl
  · show (collectResources db [n1, n2, n3]).map Resource.nodeId = [n1.id, n3.id]
    rw [hrs]
    rfl
  · show (([n1, n2, n3].map (exportRewriteNode (collectResources db [n1, n2, n3]))).get? 1)
      = some n2
    simp only [List.map_cons, List.map_nil, hrw2]
    rfl
  · show (([n1, n2, n3].map (exportRewriteNode (collectResources db [n1, n2, n3]))).get? 0).bind
      (fun m => m.data.bind NodeData.videoUrl) = some (resPrefix ++ r1)
    simp only [List.map_cons, List.map_nil, hrw1]
    rfl
  · show (([n1, n2, n3].map (exportRewriteNode (collectResources db [n1, n2, n3]))).get? 2).bind
      (fun m => m.data.bind NodeData.videoUrl) = some (resPrefix ++ r3)
    simp only [List.map_cons, List.map_nil, hrw3]
    rfl

theorem export_partial_failure_witness :
    ∃ E, exportProject db6W proj6W true = .ok E ∧
      E.resources.length = 2 ∧
      E.resources.map Resource.id = ["r1".toList, "r3".toList] ∧
      E.resources.map Resource.nodeId = [nodeW.id, n3W.id] ∧
      E.scenarioNodes.get? 1 = some n2vW ∧
      (E.scenarioNodes.get? 0).bind (fun m => m.data.bind NodeData.videoUrl)
        = some (resPrefix ++ "r1".toList) ∧
      (E.scenarioNodes.get? 2).bind (fun m => m.data.bind NodeData.videoUrl)
        = some (resPrefix ++ "r3".toList) :=
  export_partial_failure db6W proj6W nodeW n2vW n3W
    (vdW ("r1".toList)) (vdW ("r2".toList)) (vdW ("r3".toList))
    "r1".toList ("r2".toList) ("r3".toList)
    ⟨[0, 1], "video/mp4".toList⟩ ⟨[2], "video/mp4".toList⟩
    rfl rfl rfl rfl rfl rfl rfl rfl rfl rfl
    (by decide) (by decide) (by decide) (by decide) (by decide)
    (by decide) (by decide) (by decide)

/-! ## C5: listing order -/
lemma listProjects_sorted (store : IDB.Store) :
    (IDB.listProjects store).Pairwise (fun a b => b.updatedAt ≤ a.updatedAt) := by
  unfold IDB.listProjects
  refine List.Pairwise.imp ?_ (List.sorted_mergeSort ?_ ?_ store)
  · intro a b hab
    exact of_decide_eq_true hab
  · intro a b c hab hbc
    simp only [decide_eq_true_eq] at hab hbc ⊢
    omega
  · intro a b
    simp only [Bool.or_eq_true, decide_eq_true_eq]
    omega

lemma listProjects_perm (store : IDB.Store) : (IDB.listProjects store).Perm store :=
  List.mergeSort_perm store _

/-- A list that is a permutation of a pair and sorted by strictly separated
keys is that pair. -/
lemma sorted_perm_pair {x y : Project} {l : List Project}
    (hperm : l.Perm [x, y])
    (hsorted : l.Pairwise (fun a b => b.updatedAt ≤ a.updatedAt))
    (hlt : y.updatedAt < x.updatedAt) : l = [x, y] := by
  have hlen := hperm.length_eq
  match l, hlen with
  | [a, b], _ =>
    have hmem : a ∈ [x, y] := hperm.subset (by simp)
    rcases List.mem_cons.mp hmem with rfl | hmem'
    · have hb : b = y := by
        have := List.perm_singleton.mp hperm.cons_inv
        simpa using this
      rw [hb]
    · have : a = y := by simpa using hmem'
      subst this
      have hx : x ∈ [a, b] := hperm.symm.subset (by simp)
      rcases List.mem_cons.mp hx with rfl | hx'
      · have hb : b = x := by
          have := List.perm_singleton.mp hperm.cons_inv
          simpa using this
        rw [hb]
      · have : x = b := by simpa using hx'
        subst this
        have hle : x.updatedAt ≤ a.updatedAt := (List.pairwise_cons.mp hsorted).1 x (by simp)
        omega

/-- C5 counterexample: in the localStorage variant, `list()` returns projects
in the stored metadata order (creation order), not ordered by `updatedAt`
descending: after creating `p1` at time 0 and `p2` at time 1, the listing is
`[p1, p2]` with ascending `updatedAt`. -/
theorem listing_order_counterexample :
    (LS.listProjects lsDemoW).map Project.updatedAt = [0, 1] ∧
    ¬ (LS.listProjects lsDemoW).Pairwise (fun a b => b.updatedAt ≤ a.updatedAt) := by
  constructor
  · decide
  · decide

/-- C5 amended: the IndexedDB variant's `listProjects` returns exactly the
stored projects sorted by `updatedAt` descending; in particular, after saving
P1, then P2, then P1 again (with increasing clock), it returns P1 before P2.
The localStorage variant keeps metadata order instead (see the
counterexample). -/
theorem listing_order_amended :
    (∀ store : IDB.Store,
       (IDB.listProjects store).Pairwise (fun a b => b.updatedAt ≤ a.updatedAt) ∧
       (IDB.listProjects store).Perm store)
  ∧ (∀ (p1 p2 : Project) (t1 t2 t3 : Nat), p1.id ≠ p2.id → t2 < t3 →
      IDB.listProjects (IDB.saveProject t3 (IDB.saveProject t2 (IDB.saveProject t1 [] p1) p2) p1)
        = [{ p1 with updatedAt := t3 }, { p2 with updatedAt := t2 }]) := by
  refine ⟨fun store => ⟨listProjects_sorted store, listProjects_perm store⟩, ?_⟩
  intro p1 p2 t1 t2 t3 hne hlt
  have hne' : p2.id ≠ p1.id := Ne.symm hne
  have hstore : IDB.saveProject t3 (IDB.saveProject t2 (IDB.saveProject t1 [] p1) p2) p1
      = [{ p1 with updatedAt := t3 }, { p2 with updatedAt := t2 }] := by
    simp [IDB.saveProject, IDB.put, hne, hne']
  rw [hstore]
  exact sorted_perm_pair (listProjects_perm _) (listProjects_sorted _) hlt

theorem listing_order_amended_witness :
    projW.id ≠ projW2.id ∧ (1 : Nat) < 2 ∧
    IDB.listProjects (IDB.saveProject 2 (IDB.saveProject 1 (IDB.saveProject 0 [] projW) projW2) projW)
      = [{ projW with updatedAt := 2 }, { projW2 with updatedAt := 1 }] :=
  ⟨by decide, by decide, listing_order_amended.2 projW projW2 0 1 2 (by decide) (by decide)⟩

/-! ## C1: full round-trip -/
lemma url_ne_nil_of_isPrefixOf {url : Str} (h : resPrefix.isPrefixOf url = true) : url ≠ [] := by
  rw [ List.isPrefixOf_iff_prefix] at h
  obtain ⟨t, rfl⟩ := h
  simp [resPrefix]

/-- C1: importing the archive produced by a full export yields a project with
the same node count, the same node types position by position, and literally
the same edges (so the same edge count and source/target connectivity); and
every video node whose asset reference resolved to stored bytes is rewritten
to a fresh `resource://` reference under which the identical bytes are stored.
The uuid supply is assumed collision-free on the ids it mints. -/
theorem export_import_roundtrip (db : VideoDB) (P : Project) (env : ImportEnv) (E : ExportData)
    (hE : exportProject db P true = .ok E)
    (hids : (P.nodes.map RFNode.id).Nodup)
    (hmint : ∀ j, j < (collectResources db P.nodes).length →
      ∀ k, k < (collectResources db P.nodes).length →
      mkResourceId (env.resourceUuid j) = mkResourceId (env.resourceUuid k) → j = k)
    (hsome : ∃ n ∈ P.nodes, (nodeAsset db n).isSome = true) :
    ∃ R, importProject env (.object (toImportData E)) = .ok R ∧
      R.project.nodes.length = P.nodes.length ∧
      R.project.nodes.map RFNode.type = P.nodes.map RFNode.type ∧
      R.project.edges = P.edges ∧
      (∀ (i : Nat) (n : RFNode) (v : Video), P.nodes.get? i = some n →
        nodeAsset db n = some v →
        ∃ (newId : Str) (sv : StoredVideo),
          (R.project.nodes.get? i).bind (fun m => m.data.bind NodeData.videoUrl)
            = some (resPrefix ++ newId) ∧
          R.stored.lookup newId = some sv ∧ sv.data = v.data) := by
  have hinj : (⟨exportVersion, jsOr (some P.name) projetSansNom, jsOr P.description [], true,
      P.nodes.map (exportRewriteNode (collectResources db P.nodes)), P.edges,
      collectResources db P.nodes⟩ : ExportData) = E := Except.ok.inj hE
  have hEnodes : E.scenarioNodes
      = P.nodes.map (exportRewriteNode (collectResources db P.nodes)) := by
    rw [← hinj]
  have hEedges : E.scenarioEdges = P.edges := by
    rw [← hinj]
  have hEres : (toImportData E).resources.getD [] = collectResources db P.nodes := by
    rw [show (toImportData E).resources.getD [] = E.resources from rfl, ← hinj]
  obtain ⟨n0, hn0, hsome0⟩ := hsome
  obtain ⟨v0, hv0⟩ := Option.isSome_iff_exists.mp hsome0
  obtain ⟨d0, url0, _, _, _, _, _, _, _, hcoll0⟩ := nodeAsset_collectOne hv0
  have hresne : collectResources db P.nodes ≠ [] :=
    List.ne_nil_of_mem (List.mem_filterMap.mpr ⟨n0, hn0, hcoll0⟩)
  obtain ⟨R, q, hR, hqn, hqe, hRp, hRs⟩ :=
    @importProject_scenario_shape env (toImportData E)
      ⟨some E.scenarioNodes, some E.scenarioEdges⟩ E.scenarioNodes
      rfl rfl rfl (by rw [hEres]; exact hresne)
  rw [hEres, hEnodes] at hRp hRs
  rw [hEnodes] at hqn
  rw [show (⟨some E.scenarioNodes, some E.scenarioEdges⟩ : RawScenario).edges.getD []
      = E.scenarioEdges from rfl, hEedges] at hqe
  refine ⟨R, hR, ?_, ?_, ?_, ?_⟩
  · rw [hRp]
    show (((P.nodes.map (exportRewriteNode (collectResources db P.nodes))).map
      (restoreNode (buildResourceMap (collectResources db P.nodes))
        (buildResourceIdMap env (collectResources db P.nodes)))).map Prod.fst).length
      = P.nodes.length
    simp [List.length_map]
  · rw [hRp]
    show ((((P.nodes.map (exportRewriteNode (collectResources db P.nodes))).map
      (restoreNode (buildResourceMap (collectResources db P.nodes))
        (buildResourceIdMap env (collectResources db P.nodes)))).map Prod.fst).map RFNode.type)
      = P.nodes.map RFNode.type
    simp only [List.map_map]
    apply List.map_congr_left
    intro n _
    show ((restoreNode _ _ (exportRewriteNode (collectResources db P.nodes) n)).1).type = n.type
    rw [(restoreNode_fst_id _ _ _).2, exportRewriteNode_type]
  · rw [hRp]
    show q.edges = P.edges
    exact hqe
  · intro i n v hget hasset
    obtain ⟨d, url, hd, hu, ht, hp, hdb, hvne, hvb, hcoll⟩ := nodeAsset_collectOne hasset
    have hnmem : n ∈ P.nodes := List.get?_mem hget
    have hfind := find?_collectResources hids hnmem hcoll
    have hurlne : url ≠ [] := url_ne_nil_of_isPrefixOf hp
    have hrw := exportRewriteNode_found hd hu ht hurlne hfind
    have hresmem : collectedResource (stripResourcePrefix url) v n d
        ∈ collectResources db P.nodes :=
      List.mem_filterMap.mpr ⟨n, hnmem, hcoll⟩
    obtain ⟨res', hrm⟩ := buildResourceMap_isSome hresmem
    obtain ⟨hres'mem, hres'id⟩ := buildResourceMap_shape hrm
    obtain ⟨hres'data, hres'mime, hres'ne⟩ := collectResources_uniform hres'mem hres'id hdb
    obtain ⟨newId, him⟩ := buildResourceIdMap_isSome hresmem
    obtain ⟨k0, _, hnid0, _⟩ := buildResourceIdMap_shape him
    have hnidne : newId ≠ [] := by
      rw [hnid0]
      exact mkResourceId_ne_nil _
    have hdec : atobDecode res'.data = some v.data := by
      rw [hres'data]
      exact atobDecode_base64Encode v.data hvb
    have hrm2 : buildResourceMap (collectResources db P.nodes)
        (stripResourcePrefix (resPrefix ++ stripResourcePrefix url)) = some res' := by
      rw [stripResourcePrefix_append]
      exact hrm
    have him2 : buildResourceIdMap env (collectResources db P.nodes)
        (stripResourcePrefix (resPrefix ++ stripResourcePrefix url)) = some newId := by
      rw [stripResourcePrefix_append]
      exact him
    have hd2 : (exportRewriteNode (collectResources db P.nodes) n).data
        = some { d with
            videoUrl := some (resPrefix ++ stripResourcePrefix url)
            originalFilename := some (collectedResource (stripResourcePrefix url) v n d).filename } := by
      rw [hrw]
      rfl
    have ht2 : (exportRewriteNode (collectResources db P.nodes) n).type = videoType := by
      rw [exportRewriteNode_type]
      exact ht
    have hsucc := restoreNode_success hd2 rfl ht2 (isPrefixOf_append _ _) hrm2 him2
      hres'ne hnidne hdec
    have hgets : (((P.nodes.map (exportRewriteNode (collectResources db P.nodes))).map
        (restoreNode (buildResourceMap (collectResources db P.nodes))
          (buildResourceIdMap env (collectResources db P.nodes)))).get? i)
        = some (restoreNode (buildResourceMap (collectResources db P.nodes))
            (buildResourceIdMap env (collectResources db P.nodes))
            (exportRewriteNode (collectResources db P.nodes) n)) := by
      rw [List.get?_map, List.get?_map, hget]
      rfl
    have hstep_mem : (restoreNode (buildResourceMap (collectResources db P.nodes))
        (buildResourceIdMap env (collectResources db P.nodes))
        (exportRewriteNode (collectResources db P.nodes) n))
        ∈ ((P.nodes.map (exportRewriteNode (collectResources db P.nodes))).map
          (restoreNode (buildResourceMap (collectResources db P.nodes))
            (buildResourceIdMap env (collectResources db P.nodes)))) :=
      List.get?_mem hgets
    have hpair_mem : (newId, (⟨v.data, res'.mimeType⟩ : StoredVideo)) ∈
        (((P.nodes.map (exportRewriteNode (collectResources db P.nodes))).map
          (restoreNode (buildResourceMap (collectResources db P.nodes))
            (buildResourceIdMap env (collectResources db P.nodes)))).filterMap Prod.snd) := by
      apply List.mem_filterMap.mpr
      refine ⟨_, hstep_mem, ?_⟩
      rw [hsucc]
    have hpair_mem' : (newId, (⟨v.data, res'.mimeType⟩ : StoredVideo)) ∈ R.stored := by
      rw [hRs]
      exact List.mem_reverse.mpr hpair_mem
    obtain ⟨sv', hlook⟩ := mem_lookup_isSome hpair_mem'
    have him3 : buildResourceIdMap env (collectResources db P.nodes) (stripResourcePrefix url)
        = some newId := him
    have hlookmem' : (newId, sv') ∈
        (((P.nodes.map (exportRewriteNode (collectResources db P.nodes))).map
          (restoreNode (buildResourceMap (collectResources db P.nodes))
            (buildResourceIdMap env (collectResources db P.nodes)))).filterMap Prod.snd).reverse := by
      have h0 := lookup_mem hlook
      rw [hRs] at h0
      exact h0
    have hall' : ∀ res ∈ collectResources db P.nodes,
        res.id = stripResourcePrefix url → res.data = base64Encode v.data :=
      fun res h1 h2 => (collectResources_uniform h1 h2 hdb).1
    have hsv' : sv'.data = v.data :=
      stored_steps_uniform (fun j k hj hk => hmint j hj k hk) hlookmem' him3 hall' hvb
    refine ⟨newId, sv', ?_, hlook, hsv'⟩
    rw [hRp]
    show (((((P.nodes.map (exportRewriteNode (collectResources db P.nodes))).map
      (restoreNode (buildResourceMap (collectResources db P.nodes))
        (buildResourceIdMap env (collectResources db P.nodes)))).map Prod.fst).get? i).bind
          (fun m => m.data.bind NodeData.videoUrl))
      = some (resPrefix ++ newId)
    rw [List.get?_map, hgets]
    rw [show Option.map Prod.fst (some (restoreNode (buildResourceMap (collectResources db P.nodes))
      (buildResourceIdMap env (collectResources db P.nodes))
      (exportRewriteNode (collectResources db P.nodes) n)))
      = some ((restoreNode (buildResourceMap (collectResources db P.nodes))
        (buildResourceIdMap env (collectResources db P.nodes))
        (exportRewriteNode (collectResources db P.nodes) n)).1) from rfl]
    rw [hsucc]
    rfl

theorem export_import_roundtrip_witness :
    exportProject dbW projW true = .ok exportFullW ∧
    (projW.nodes.map RFNode.id).Nodup ∧
    (∃ n ∈ projW.nodes, (nodeAsset dbW n).isSome = true) ∧
    (∃ R, importProject envW (.object (toImportData exportFullW)) = .ok R ∧
      R.project.nodes.length = projW.nodes.length ∧
      R.project.nodes.map RFNode.type = projW.nodes.map RFNode.type ∧
      R.project.edges = projW.edges ∧
      (∀ (i : Nat) (n : RFNode) (v : Video), projW.nodes.get? i = some n →
        nodeAsset dbW n = some v →
        ∃ (newId : Str) (sv : StoredVideo),
          (R.project.nodes.get? i).bind (fun m => m.data.bind NodeData.videoUrl)
            = some (resPrefix ++ newId) ∧
          R.stored.lookup newId = some sv ∧ sv.data = v.data)) :=
  ⟨rfl, by decide, by decide,
    export_import_roundtrip dbW projW envW exportFullW rfl (by decide) (by decide) (by decide)⟩

/-! ## C10: data-URL header insensitivity of the import-side decoder -/
lemma b64val_comma : b64val ',' = none := by decide

lemma b64val_ne_comma {c : Char} {v : Nat} (h : b64val c = some v) : c ≠ ',' := by
  intro hc
  rw [hc, b64val_comma] at h
  exact Option.noConfusion h

lemma comma_ne_eq : ¬ (',' : Char) = '=' := by decide

/-- A string that `atob` decodes contains no comma. -/
lemma atob_no_comma : ∀ (s : Str) (bs : List Nat), atobDecode s = some bs → ',' ∉ s := by
  intro s
  induction s using atobDecode.induct with
  | case1 =>
    intro bs _
    simp
  | case2 c1 c2 c4 rest v1 v2 h2 h1 hg =>
    intro bs _ hmem
    obtain ⟨rfl, rfl⟩ := hg
    simp only [List.mem_cons, List.not_mem_nil, or_false] at hmem
    rcases hmem with h0 | h0 | h0 | h0
    · exact b64val_ne_comma h1 h0.symm
    · exact b64val_ne_comma h2 h0.symm
    · exact comma_ne_eq h0
    · exact comma_ne_eq h0
  | case3 c1 c2 c4 rest v1 v2 h2 h1 hg =>
    intro bs h
    exfalso
    simp [atobDecode, h1, h2, hg] at h
  | case4 c1 c2 c3 v1 v2 h2 h1 hne3 v3 h3 =>
    intro bs _ hmem
    simp only [List.mem_cons, List.not_mem_nil, or_false] at hmem
    rcases hmem with h0 | h0 | h0 | h0
    · exact b64val_ne_comma h1 h0.symm
    · exact b64val_ne_comma h2 h0.symm
    · exact b64val_ne_comma h3 h0.symm
    · exact comma_ne_eq h0
  | case5 c1 c2 c3 rest v1 v2 h2 h1 hne3 v3 h3 hrest =>
    intro bs h
    exfalso
    simp [atobDecode, h1, h2, h3, hne3, hrest] at h
  | case6 c1 c2 c3 c4 rest v1 v2 h2 h1 hne3 v3 h3 hne4 v4 h4 ih =>
    intro bs h hmem
    have hrest : ∃ tl, atobDecode rest = some tl := by
      simp only [atobDecode, h1, h2, h3, h4] at h
      rw [if_neg hne3, if_neg hne4] at h
      obtain ⟨tl, htl, _⟩ := Option.map_eq_some'.mp h
      exact ⟨tl, htl⟩
    obtain ⟨tl, htl⟩ := hrest
    simp only [List.mem_cons] at hmem
    rcases hmem with h0 | h0 | h0 | h0 | h0
    · exact b64val_ne_comma h1 h0.symm
    · exact b64val_ne_comma h2 h0.symm
    · exact b64val_ne_comma h3 h0.symm
    · exact b64val_ne_comma h4 h0.symm
    · exact ih tl htl h0
  | case7 c1 c2 c3 c4 rest v1 v2 h2 h1 hne3 v3 h3 hne4 h4 =>
    intro bs h
    exfalso
    simp [atobDecode, h1, h2, h3, h4, hne3, hne4] at h
  | case8 c1 c2 c3 c4 rest v1 v2 h2 h1 hne3 h3 =>
    intro bs h
    exfalso
    simp [atobDecode, h1, h2, h3, hne3] at h
  | case9 c1 c2 c3 c4 rest hfalse =>
    intro bs h
    exfalso
    cases hb1 : b64val c1 with
    | none => simp [atobDecode, hb1] at h
    | some v1 =>
      cases hb2 : b64val c2 with
      | none => simp [atobDecode, hb1, hb2] at h
      | some v2 => exact hfalse v1 v2 hb1 hb2
  | case10 t hnil hcons =>
    intro bs h
    exfalso
    match t, hnil, hcons with
    | [], hnil, _ => exact hnil rfl
    | [a], _, _ => exact Option.noConfusion h
    | [a, b], _, _ => exact Option.noConfusion h
    | [a, b, c], _, _ => exact Option.noConfusion h
    | a :: b :: c :: e :: r, _, hcons => exact hcons a b c e r rfl

lemma mem_of_isPrefixOf_b64sep {w : Str} (h : b64sep.isPrefixOf w = true) : ',' ∈ w := by
  rw [ List.isPrefixOf_iff_prefix] at h
  obtain ⟨t, rfl⟩ := h
  exact List.mem_append.mpr (Or.inl (by decide))

lemma jsIncludesB64_eq_false {s : Str} (h : ',' ∉ s) : jsIncludesB64 s = false := by
  induction s with
  | nil => rfl
  | cons c rest ih =>
    have hp : b64sep.isPrefixOf (c :: rest) = false := by
      by_contra hc
      rw [Bool.not_eq_false] at hc
      exact h (mem_of_isPrefixOf_b64sep hc)
    show (b64sep.isPrefixOf (c :: rest) || jsIncludesB64 rest) = false
    rw [hp, ih (fun hm => h (List.mem_cons_of_mem _ hm))]
    rfl

lemma jsIncludesB64_parts (t : Str) : ∀ (p : Str), jsIncludesB64 (p ++ b64sep ++ t) = true := by
  intro p
  induction p with
  | nil =>
    show (b64sep.isPrefixOf (b64sep ++ t) || jsIncludesB64 ("ase64,".toList ++ t)) = true
    rw [isPrefixOf_append]
    rfl
  | cons c p ih =>
    show (b64sep.isPrefixOf (c :: (p ++ b64sep ++ t)) || jsIncludesB64 (p ++ b64sep ++ t)) = true
    rw [ih, Bool.or_true]

lemma jsSplitOnB64_nil : jsSplitOnB64 [] = [[]] := by
  rw [jsSplitOnB64.eq_def]

lemma jsSplitOnB64_cons (c : Char) (rest : Str) :
    jsSplitOnB64 (c :: rest) =
      if b64sep.isPrefixOf (c :: rest) then
        [] :: jsSplitOnB64 ((c :: rest).drop b64sep.length)
      else
        match jsSplitOnB64 rest with
        | [] => [[c]]
        | p :: ps => (c :: p) :: ps := by
  rw [jsSplitOnB64.eq_def]

lemma jsSplitOnB64_no_sep : ∀ {s : Str}, ',' ∉ s → jsSplitOnB64 s = [s] := by
  intro s
  induction s with
  | nil => intro _; exact jsSplitOnB64_nil
  | cons c rest ih =>
    intro h
    have hp : b64sep.isPrefixOf (c :: rest) = false := by
      by_contra hc
      rw [Bool.not_eq_false] at hc
      exact h (mem_of_isPrefixOf_b64sep hc)
    rw [jsSplitOnB64_cons]
    rw [if_neg (by rw [hp]; exact Bool.false_ne_true)]
    rw [ih (fun hm => h (List.mem_cons_of_mem _ hm))]

/-- `'base64,'` is not a prefix of `w ++ 'base64,' ++ t` when the nonempty
`w` contains no comma: the comma of the separator cannot line up. -/
lemma b64sep_isPrefixOf_false {w t : Str} (hw : w ≠ []) (hc : ',' ∉ w) :
    b64sep.isPrefixOf (w ++ b64sep ++ t) = false := by
  by_contra h0
  rw [Bool.not_eq_false, List.isPrefixOf_iff_prefix] at h0
  obtain ⟨u, hu⟩ := h0
  have h6 : (b64sep ++ u).get? 6 = some ',' := by
    rw [List.get?_append (by decide)]
    decide
  rw [hu, List.append_assoc] at h6
  by_cases hlen : 6 < w.length
  · rw [List.get?_append hlen] at h6
    exact hc (List.get?_mem h6)
  · have hw1 : 1 ≤ w.length := by
      cases w with
      | nil => exact absurd rfl hw
      | cons a l => simp
    rw [List.get?_append_right (by omega)] at h6
    rw [List.get?_append (by simp [b64sep]; omega)] at h6
    have hi5 : 6 - w.length ≤ 5 := by omega
    revert h6
    generalize 6 - w.length = i at hi5
    interval_cases i <;> decide

lemma jsSplitOnB64_append (t : Str) : ∀ (p : Str), ',' ∉ p →
    jsSplitOnB64 (p ++ b64sep ++ t) = p :: jsSplitOnB64 t := by
  intro p
  induction p with
  | nil =>
    intro _
    show jsSplitOnB64 (b64sep ++ t) = [] :: jsSplitOnB64 t
    rw [show b64sep ++ t = 'b' :: ("ase64,".toList ++ t) from rfl]
    rw [jsSplitOnB64_cons]
    rw [if_pos (show b64sep.isPrefixOf ('b' :: ("ase64,".toList ++ t)) = true
      from isPrefixOf_append b64sep t)]
    rw [show ('b' :: ("ase64,".toList ++ t)).drop b64sep.length = t from List.drop_left b64sep t]
  | cons c p ih =>
    intro h
    have hnp : b64sep.isPrefixOf ((c :: p) ++ b64sep ++ t) = false :=
      b64sep_isPrefixOf_false (by simp) h
    rw [show (c :: p) ++ b64sep ++ t = c :: (p ++ b64sep ++ t) from by simp] at hnp
    rw [show (c :: p) ++ b64sep ++ t = c :: (p ++ b64sep ++ t) from by simp]
    rw [jsSplitOnB64_cons]
    rw [if_neg (by rw [hnp]; exact Bool.false_ne_true)]
    rw [ih (fun hm => h (List.mem_cons_of_mem _ hm))]

/-- C10: the import-side decoder ignores a `data:<mime>;base64,` header —
decoding a headered string and decoding the bare payload yield the same
blob, for any payload `atob` accepts and any comma-free mime type. -/
theorem base64_header_insensitive (mime s t : Str) (bs : List Nat)
    (hdec : atobDecode s = some bs) (hm : ',' ∉ mime) :
    base64ToBlob (dataUrlHeader mime ++ s) t = base64ToBlob s t := by
  have hs : ',' ∉ s := atob_no_comma s bs hdec
  have hpfx : ',' ∉ ("data:".toList ++ mime ++ ";".toList) := by
    intro hmem
    rcases List.mem_append.mp hmem with h0 | h0
    · rcases List.mem_append.mp h0 with h1 | h1
      · revert h1; decide
      · exact hm h1
    · revert h0; decide
  have hassoc : dataUrlHeader mime ++ s
      = ("data:".toList ++ mime ++ ";".toList) ++ b64sep ++ s := by
    simp [dataUrlHeader, List.append_assoc]
  have hinc : jsIncludesB64 (dataUrlHeader mime ++ s) = true := by
    rw [hassoc]
    exact jsIncludesB64_parts s _
  have hninc : jsIncludesB64 s = false := jsIncludesB64_eq_false hs
  have hsplit : jsSplitOnB64 (dataUrlHeader mime ++ s)
      = [("data:".toList ++ mime ++ ";".toList), s] := by
    rw [hassoc, jsSplitOnB64_append s _ hpfx, jsSplitOnB64_no_sep hs]
  unfold base64ToBlob
  rw [hinc, hninc, hsplit]
  rfl

theorem base64_header_insensitive_witness :
    atobDecode ("AAE=".toList) = some [0, 1] ∧ (',' : Char) ∉ "video/mp4".toList ∧
    base64ToBlob (dataUrlHeader ("video/mp4".toList) ++ "AAE=".toList) ("x".toList)
      = base64ToBlob ("AAE=".toList) ("x".toList) :=
  ⟨by decide, by decide,
    base64_header_insensitive ("video/mp4".toList) ("AAE=".toList) ("x".toList) [0, 1]
      (by decide) (by decide)⟩

end Amen
